import Mathlib

/-!
Verification of the course-discovery catalog core: the draft/official
promotion algorithm, the course-run publication state machine, and the
URL-slug activation registry, shallowly embedded from
`course_discovery/apps/course_metadata/models.py`.

Time is modelled as `Nat` (all comparisons in the source are strict or
non-strict datetime comparisons, order-isomorphic to `Nat` on any concrete
execution).  Database tables are modelled as Lean lists in row order;
`QuerySet.first()` is `List.find?`.
-/

namespace CourseDiscovery

/-- Publication status of a course run (`CourseRunStatus` choices, as used by
`models.py`). -/
inductive RunStatus
  | Unpublished
  | InternalReview
  | LegalReview
  | Reviewed
  | Published
  deriving DecidableEq, Repr, Inhabited

/-! ## Sweep model: `Course.unpublish_inactive_runs`

A run row as seen by the sweep: its status, the date fields feeding
`enrollment_deadline`, the inputs of `could_be_marketable`, and the paired
draft row's status (`draft_version`), `none` when the run has no draft pair. -/

/-- A course run row, restricted to the fields read and written by
`Course.unpublish_inactive_runs` (models.py:1910) and the predicates it
calls. -/
structure SweepRun where
  status : RunStatus
  endDate : Option Nat
  enrollmentEnd : Option Nat
  typeIsMarketable : Bool
  keyDeprecated : Bool
  draft : Bool
  draftStatus : Option RunStatus
  deriving DecidableEq, Repr, Inhabited

/-- `CourseRun.enrollment_deadline` (models.py:3053): the minimum of the set
of present values among `end` and `enrollment_end`, `None` if both unset. -/
def enrollment_deadline (r : SweepRun) : Option Nat :=
  match r.endDate, r.enrollmentEnd with
  | some e, some ee => some (min e ee)
  | some e, none => some e
  | none, some ee => some ee
  | none, none => none

/-- `CourseRun.has_enrollment_ended` (models.py:3044): the deadline is defined
and strictly before `when`. -/
def has_enrollment_ended (r : SweepRun) (whenT : Nat) : Bool :=
  match enrollment_deadline r with
  | some d => d < whenT
  | none => false

/-- `CourseRun.could_be_marketable` (models.py:3079): the run type is
marketable, the key is not a deprecated (old Mongo) format, and the row is the
official (non-draft) copy. -/
def could_be_marketable (r : SweepRun) : Bool :=
  if !r.typeIsMarketable then false
  else if r.keyDeprecated then false
  else !r.draft

/-- The per-run mutation performed by the sweep's action loop: set the run and
its paired draft row (when present) to `Unpublished`. -/
def sweepUnpublish (r : SweepRun) : SweepRun :=
  { r with
      status := .Unpublished
      draftStatus := r.draftStatus.map (fun _ => .Unpublished) }

/-- The `published_runs` set of the sweep: rows with status `Published`
(models.py:1926). -/
def sweepPublished (runs : List SweepRun) : List SweepRun :=
  runs.filter (fun r => r.status == .Published)

/-- The sweep's `inactive_runs` set (models.py:1932): published rows whose
enrollment has ended. -/
def sweepInactive (now : Nat) (runs : List SweepRun) : List SweepRun :=
  (sweepPublished runs).filter (fun r => has_enrollment_ended r now)

/-- The sweep's `marketable_runs` set (models.py:1933): published rows that
are not inactive and could be marketable. -/
def sweepMarketable (now : Nat) (runs : List SweepRun) : List SweepRun :=
  ((sweepPublished runs).filter (fun r => !has_enrollment_ended r now)).filter
    (fun r => could_be_marketable r)

/-- `Course.unpublish_inactive_runs` (models.py:1910).  `runs` is the course's
run table; the function itself selects the `Published` rows, splits them into
inactive (enrollment ended) and marketable survivors, refuses when either the
inactive or the surviving-marketable set is empty (or the partner has no
marketing site), and otherwise unpublishes exactly the inactive rows together
with their paired draft rows.  Returns the source's boolean alongside the
updated run table. -/
def unpublish_inactive_runs (hasMarketingSite : Bool) (now : Nat)
    (runs : List SweepRun) : Bool × List SweepRun :=
  if !hasMarketingSite then (false, runs)
  else if (sweepMarketable now runs).isEmpty ∨ (sweepInactive now runs).isEmpty
  then (false, runs)
  else
    (true, runs.map (fun r =>
      if r.status == .Published && has_enrollment_ended r now then
        sweepUnpublish r
      else r))

/-- The sweep refuses (returns `false`, table untouched) when there is no
inactive published run or no surviving marketable run. -/
theorem sweep_refuses (hms : Bool) (now : Nat) (runs : List SweepRun)
    (h : sweepMarketable now runs = [] ∨ sweepInactive now runs = []) :
    unpublish_inactive_runs hms now runs = (false, runs) := by
  unfold unpublish_inactive_runs
  rcases h with h | h <;> cases hms <;> simp [h]

/-- The sweep acts (returns `true` and the pointwise-unpublished table) when
the partner has a marketing site and both sets are nonempty. -/
theorem sweep_acts (now : Nat) (runs : List SweepRun)
    (hm : sweepMarketable now runs ≠ [])
    (hi : sweepInactive now runs ≠ []) :
    unpublish_inactive_runs true now runs =
      (true, runs.map (fun r =>
        if r.status == .Published && has_enrollment_ended r now then
          sweepUnpublish r
        else r)) := by
  unfold unpublish_inactive_runs
  simp [hm, hi]

/-- C1: the sweep `Course.unpublish_inactive_runs` never unpublishes all
marketable published runs.  (a) If there is no enrollment-ended published run,
or no marketable published run would survive the removal, it returns `false`
and leaves the run table unchanged; (b) the output table has the same length;
(c) any row it changes was a `Published` row whose enrollment had ended, and
the change is exactly setting it (and its paired draft row) to `Unpublished`;
(d) whenever a marketable published run existed before the sweep, one still
exists after it. -/
theorem unpublish_inactive_runs_safety (hms : Bool) (now : Nat)
    (runs : List SweepRun) :
    ((sweepInactive now runs = [] ∨ sweepMarketable now runs = []) →
      unpublish_inactive_runs hms now runs = (false, runs)) ∧
    (unpublish_inactive_runs hms now runs).2.length = runs.length ∧
    (∀ i (h : i < runs.length)
        (h2 : i < (unpublish_inactive_runs hms now runs).2.length),
      (unpublish_inactive_runs hms now runs).2.get ⟨i, h2⟩ ≠ runs.get ⟨i, h⟩ →
        (runs.get ⟨i, h⟩).status = .Published ∧
        has_enrollment_ended (runs.get ⟨i, h⟩) now = true ∧
        (unpublish_inactive_runs hms now runs).2.get ⟨i, h2⟩ =
          sweepUnpublish (runs.get ⟨i, h⟩)) ∧
    ((∃ r ∈ runs, r.status = .Published ∧ could_be_marketable r = true) →
      ∃ r ∈ (unpublish_inactive_runs hms now runs).2,
        r.status = .Published ∧ could_be_marketable r = true) := by
  by_cases hstill : hms = true ∧ sweepMarketable now runs ≠ [] ∧
      sweepInactive now runs ≠ []
  · obtain ⟨hh, hm, hi⟩ := hstill
    subst hh
    have hact := sweep_acts now runs hm hi
    rw [hact]
    refine ⟨?_, by simp, ?_, ?_⟩
    · intro hrefuse
      rcases hrefuse with hrefuse | hrefuse
      · exact absurd hrefuse hi
      · exact absurd hrefuse hm
    · intro i h h2 hne
      have hget : ((runs.map (fun r =>
          if r.status == RunStatus.Published && has_enrollment_ended r now
          then sweepUnpublish r else r)).get ⟨i, h2⟩ : SweepRun) =
          (fun r =>
            if r.status == RunStatus.Published && has_enrollment_ended r now
            then sweepUnpublish r else r) (runs.get ⟨i, h⟩) :=
        List.getElem_map _
      set old := runs.get ⟨i, h⟩ with hold
      simp only [hget] at hne ⊢
      by_cases hcond :
          (old.status == RunStatus.Published && has_enrollment_ended old now)
          = true
      · have hparts := (Bool.and_eq_true _ _).mp hcond
        exact ⟨beq_iff_eq.mp hparts.1, hparts.2, by rw [if_pos hcond]⟩
      · exact absurd (if_neg hcond) hne
    · intro _
      obtain ⟨m, hmem⟩ := List.exists_mem_of_ne_nil _ hm
      have hm1 := List.of_mem_filter hmem
      have hm2 := List.mem_of_mem_filter hmem
      have hm3 := List.of_mem_filter hm2
      have hm4 := List.mem_of_mem_filter hm2
      have hm5 := List.of_mem_filter hm4
      have hm6 := List.mem_of_mem_filter hm4
      have hmpub : m.status = RunStatus.Published := beq_iff_eq.mp hm5
      have hmnotend : has_enrollment_ended m now = false := by
        cases hval : has_enrollment_ended m now
        · rfl
        · rw [hval] at hm3
          simp at hm3
      refine ⟨m, ?_, hmpub, hm1⟩
      apply List.mem_map.mpr
      refine ⟨m, hm6, ?_⟩
      rw [hmnotend]
      simp
  · have href : unpublish_inactive_runs hms now runs = (false, runs) := by
      by_cases hh : hms = true
      · subst hh
        rcases not_and_or.mp hstill with hcontra | hrest
        · exact absurd rfl hcontra
        · rcases not_and_or.mp hrest with hmn | hin
          · exact sweep_refuses true now runs (Or.inl (not_not.mp hmn))
          · exact sweep_refuses true now runs (Or.inr (not_not.mp hin))
      · have : hms = false := by cases hms <;> simp_all
        subst this
        unfold unpublish_inactive_runs
        simp
    rw [href]
    exact ⟨fun _ => rfl, rfl, fun i h h2 hne => absurd rfl hne, fun hex => hex⟩

/-- Witness for `unpublish_inactive_runs_safety`: on a concrete course with an
enrollment-ended published run and a still-marketable published run, a
marketable published run survives the sweep. -/
theorem unpublish_inactive_runs_safety_witness :
    ∃ r ∈ (unpublish_inactive_runs true 10
        [⟨.Published, some 5, none, true, false, false, some .Published⟩,
         ⟨.Published, none, none, true, false, false, none⟩]).2,
      r.status = RunStatus.Published ∧ could_be_marketable r = true :=
  (unpublish_inactive_runs_safety true 10
    [⟨.Published, some 5, none, true, false, false, some .Published⟩,
     ⟨.Published, none, none, true, false, false, none⟩]).2.2.2
    (by decide)

/-! ## Slug registry model: `CourseUrlSlug`, `Course.set_active_url_slug`,
`Course.active_url_slug`

The slug table is a single-partner list of `CourseUrlSlug` rows in insertion
order; `QuerySet.first()` is `List.find?`, `update_or_create` is
replace-first-match-or-append, `delete()` on a fetched row removes the first
match, and a filtered `delete()` removes every match. -/

/-- A `CourseUrlSlug` row (models.py:4668) for a single partner. -/
structure UrlSlugRow where
  courseId : Nat
  urlSlug : String
  isActive : Bool
  isActiveOnDraft : Bool
  deriving DecidableEq, Repr, Inhabited

/-- Course identity as consumed by the slug registry: primary key, draft flag,
and the paired counterpart course's key (`official_version` for a draft row,
`draft_version` for an official row), if any. -/
structure CourseCtx where
  id : Nat
  draft : Bool
  counterpartId : Option Nat
  deriving DecidableEq, Repr, Inhabited

/-- Replace the first row satisfying `p` by its image under `f` (the model of
Django `update_or_create` hitting an existing row). -/
def replaceFirst (p : UrlSlugRow → Bool) (f : UrlSlugRow → UrlSlugRow) :
    List UrlSlugRow → List UrlSlugRow
  | [] => []
  | r :: rs => if p r then f r :: rs else r :: replaceFirst p f rs

/-- Delete the first row satisfying `p` (the model of `row.delete()` on a
row fetched with `.first()`). -/
def eraseFirst (p : UrlSlugRow → Bool) : List UrlSlugRow → List UrlSlugRow
  | [] => []
  | r :: rs => if p r then rs else r :: eraseFirst p rs

/-- Python `str.lower`, modelled per character (ASCII case mapping, which is
what URL slugs use). -/
def lowerStr (s : String) : String :=
  ⟨s.data.map Char.toLower⟩

/-- The "slug already in use with another course" test of
`Course.set_active_url_slug` (models.py:1991): some row whose text matches
case-insensitively (`url_slug__iexact=slug.lower()`) belongs to a course
other than this one and its paired counterpart.  The filter is over the whole
table, with no condition on the active flags. -/
def slugInUseElsewhere (c : CourseCtx) (slug : String)
    (tbl : List UrlSlugRow) : Bool :=
  tbl.any (fun r =>
    lowerStr r.urlSlug == lowerStr slug && r.courseId != c.id &&
      (match c.counterpartId with
       | some k => r.courseId != k
       | none => true))

/-- Case 2 of the draft branch (models.py:2017): `update_or_create` keyed on
`is_active=True` within the course's own history, setting the new text (and
leaving `is_active_on_draft` untouched on update); a fresh row carries the
model defaults (`is_active_on_draft = false`). -/
def draftUpdateOrCreateActive (c : CourseCtx) (slug : String)
    (tbl : List UrlSlugRow) : List UrlSlugRow :=
  if tbl.any (fun r => r.courseId == c.id && r.isActive) then
    replaceFirst (fun r => r.courseId == c.id && r.isActive)
      (fun r => { r with urlSlug := slug, isActive := true }) tbl
  else
    tbl ++ [{ courseId := c.id, urlSlug := slug, isActive := true,
              isActiveOnDraft := false }]

/-- The loop body of the draft branch (models.py:2002): a row of the official
counterpart that is flagged active-on-draft or matches the text gets
`is_active_on_draft := (text match)`. -/
def draftLoopFix (off : Nat) (slug : String) (r : UrlSlugRow) : UrlSlugRow :=
  if r.courseId == off && (r.isActiveOnDraft || r.urlSlug == slug) then
    { r with isActiveOnDraft := r.urlSlug == slug }
  else r

/-- The draft branch of `Course.set_active_url_slug` (models.py:1996).  When
an official counterpart exists, its rows pass through `draftLoopFix`; if an
exact text match was found the previously active draft-side row is deleted,
otherwise control falls through to case 2. -/
def setActiveUrlSlugDraft (c : CourseCtx) (slug : String)
    (tbl : List UrlSlugRow) : List UrlSlugRow :=
  match c.counterpartId with
  | some off =>
    if tbl.any (fun r => r.courseId == off && r.urlSlug == slug) then
      eraseFirst (fun r => r.courseId == c.id && r.isActive)
        (tbl.map (draftLoopFix off slug))
    else
      draftUpdateOrCreateActive c slug (tbl.map (draftLoopFix off slug))
  | none => draftUpdateOrCreateActive c slug tbl

/-- First statement of the official branch (models.py:2032): delete the draft
counterpart's active rows. -/
def officialDeleteDraftActive (c : CourseCtx) (tbl : List UrlSlugRow) :
    List UrlSlugRow :=
  match c.counterpartId with
  | some d => tbl.filter (fun r => !(r.courseId == d && r.isActive))
  | none => tbl

/-- The row update of the official branch's `update_or_create`
(models.py:2033): set the text and both active flags. -/
def officialUpsertRow (slug : String) (r : UrlSlugRow) : UrlSlugRow :=
  { r with
      urlSlug := slug
      isActive := true
      isActiveOnDraft := true }

/-- The official branch's `update_or_create` keyed on the exact text within
the course's own history (models.py:2033). -/
def officialUpsert (c : CourseCtx) (slug : String) (tbl : List UrlSlugRow) :
    List UrlSlugRow :=
  if tbl.any (fun r => r.courseId == c.id && r.urlSlug == slug) then
    replaceFirst (fun r => r.courseId == c.id && r.urlSlug == slug)
      (officialUpsertRow slug) tbl
  else
    tbl ++ [{ courseId := c.id
              urlSlug := slug
              isActive := true
              isActiveOnDraft := true }]

/-- The clearing loop of the official branch (models.py:2045): every other
flagged row of the course loses both flags. -/
def clearOtherFlags (c : CourseCtx) (slug : String) (r : UrlSlugRow) :
    UrlSlugRow :=
  if r.courseId == c.id && (r.isActive || r.isActiveOnDraft) &&
      r.urlSlug != slug then
    { r with isActive := false, isActiveOnDraft := false }
  else r

/-- The official branch of `Course.set_active_url_slug` (models.py:2030):
delete the draft counterpart's active rows, `update_or_create` keyed on the
exact text with both flags set, then clear both flags on every other flagged
row of the course. -/
def setActiveUrlSlugOfficial (c : CourseCtx) (slug : String)
    (tbl : List UrlSlugRow) : List UrlSlugRow :=
  (officialUpsert c slug (officialDeleteDraftActive c tbl)).map
    (clearOtherFlags c slug)

/-- `Course.set_active_url_slug` (models.py:1977).  The `IntegrityError` for a
slug owned by another course is `Except.error`; cache clearing and logging
(no table effect) are omitted.  A `None`/empty slug skips the conflict check
(`if slug:`), modelled by the empty string. -/
def set_active_url_slug (c : CourseCtx) (slug : String)
    (tbl : List UrlSlugRow) : Except Unit (List UrlSlugRow) :=
  if slug != "" && slugInUseElsewhere c slug tbl then .error ()
  else if c.draft then .ok (setActiveUrlSlugDraft c slug tbl)
  else .ok (setActiveUrlSlugOfficial c slug tbl)

/-- `Course.active_url_slug` (models.py:1741), with the request cache and the
prefetch fast path (pure caching layers over the same query) omitted: the
course's own first active row, else — for a draft course with an official
counterpart — the counterpart's first active-on-draft row. -/
def active_url_slug (c : CourseCtx) (tbl : List UrlSlugRow) : Option String :=
  let own := tbl.find? (fun r => r.courseId == c.id && r.isActive)
  let resolved :=
    match own with
    | some r => some r
    | none =>
      if c.draft then
        match c.counterpartId with
        | some off =>
          tbl.find? (fun r => r.courseId == off && r.isActiveOnDraft)
        | none => none
      else none
  resolved.map (fun r => r.urlSlug)

/-- C7: active-slug resolution.  An official course resolves to the text of
its own first `is_active` row (`none` when it has none, even when a draft
counterpart exists); a draft course resolves to its own active row when one
exists, otherwise inherits the text of its official counterpart's
`is_active_on_draft` row, and yields `none` only when neither exists. -/
theorem active_url_slug_resolution (c : CourseCtx) (tbl : List UrlSlugRow) :
    (c.draft = false →
      active_url_slug c tbl =
        (tbl.find? (fun r => r.courseId == c.id && r.isActive)).map
          (fun r => r.urlSlug)) ∧
    (c.draft = true →
      (∀ r, tbl.find? (fun r => r.courseId == c.id && r.isActive) = some r →
        active_url_slug c tbl = some r.urlSlug) ∧
      (tbl.find? (fun r => r.courseId == c.id && r.isActive) = none →
        (∀ off, c.counterpartId = some off →
          active_url_slug c tbl =
            (tbl.find? (fun r => r.courseId == off && r.isActiveOnDraft)).map
              (fun r => r.urlSlug)) ∧
        (c.counterpartId = none → active_url_slug c tbl = none))) := by
  refine ⟨?_, ?_⟩
  · intro hd
    cases hfind : tbl.find? (fun r => r.courseId == c.id && r.isActive) with
    | none => simp [active_url_slug, hfind, hd]
    | some r => simp [active_url_slug, hfind]
  · intro hd
    refine ⟨?_, ?_⟩
    · intro r hfind
      simp [active_url_slug, hfind]
    · intro hfind
      refine ⟨?_, ?_⟩
      · intro off hoff
        cases hoffind : tbl.find?
            (fun r => r.courseId == off && r.isActiveOnDraft) with
        | none => simp [active_url_slug, hfind, hd, hoff, hoffind]
        | some r => simp [active_url_slug, hfind, hd, hoff, hoffind]
      · intro hnone
        simp [active_url_slug, hfind, hd, hnone]

/-- Witness for `active_url_slug_resolution`: a draft course with no active
row of its own inherits the active-on-draft text of its official
counterpart. -/
theorem active_url_slug_resolution_witness :
    active_url_slug ⟨0, true, some 1⟩ [⟨1, "pub", true, true⟩] = some "pub" := by
  have h := ((active_url_slug_resolution ⟨0, true, some 1⟩
    [⟨1, "pub", true, true⟩]).2 rfl).2 rfl
  rw [h.1 1 rfl]
  rfl

/-- C3 (amended): slug activation fails with `IntegrityError` — persisting no
slug change — exactly when the slug text already appears, case-insensitively,
on any slug row of a different course (regardless of the row's active flags),
where the course's own paired draft/official counterpart does not count as a
different course. -/
theorem set_active_url_slug_conflict_iff (c : CourseCtx) (slug : String)
    (tbl : List UrlSlugRow) (hne : slug ≠ "") :
    set_active_url_slug c slug tbl = .error () ↔
      ∃ r ∈ tbl, lowerStr r.urlSlug = lowerStr slug ∧ r.courseId ≠ c.id ∧
        ∀ k, c.counterpartId = some k → r.courseId ≠ k := by
  have hbne : (slug != "") = true := bne_iff_ne.mpr hne
  by_cases hin : slugInUseElsewhere c slug tbl = true
  · have hlhs : set_active_url_slug c slug tbl = .error () := by
      unfold set_active_url_slug
      rw [hbne, hin]
      simp
    rw [hlhs]
    simp only [true_iff]
    obtain ⟨r, hr, hprop⟩ := List.any_eq_true.mp hin
    rw [Bool.and_eq_true, Bool.and_eq_true] at hprop
    obtain ⟨⟨h1, h2⟩, h3⟩ := hprop
    refine ⟨r, hr, beq_iff_eq.mp h1, bne_iff_ne.mp h2, ?_⟩
    intro k hk
    rw [hk] at h3
    exact bne_iff_ne.mp h3
  · have hfalse : slugInUseElsewhere c slug tbl = false :=
      Bool.eq_false_iff.mpr hin
    have hlhs : set_active_url_slug c slug tbl ≠ .error () := by
      unfold set_active_url_slug
      rw [hbne, hfalse]
      cases c.draft <;> simp
    simp only [hlhs, false_iff]
    rintro ⟨r, hr, h1, h2, h3⟩
    apply hin
    apply List.any_eq_true.mpr
    refine ⟨r, hr, ?_⟩
    rw [Bool.and_eq_true, Bool.and_eq_true]
    refine ⟨⟨beq_iff_eq.mpr h1, bne_iff_ne.mpr h2⟩, ?_⟩
    cases hk : c.counterpartId with
    | none => rfl
    | some k => exact bne_iff_ne.mpr (h3 k hk)

/-- Counterexample to C3 as stated: activation of "python-basics" for course 0
fails although no slug row anywhere is active or active-on-draft — the text
merely sits inactive in course 1's history, so the claim's "exactly when the
slug text is already owned (active or active-on-draft)" condition predicts
success. -/
theorem set_active_url_slug_conflict_counterexample :
    set_active_url_slug ⟨0, true, none⟩ "python-basics"
        [⟨1, "python-basics", false, false⟩] = .error () ∧
    ∀ r ∈ ([⟨1, "python-basics", false, false⟩] : List UrlSlugRow),
      r.isActive = false ∧ r.isActiveOnDraft = false :=
  ⟨rfl, by decide⟩

/-- Witness for `set_active_url_slug_conflict_iff`: a case-insensitive match
held by another course makes activation fail. -/
theorem set_active_url_slug_conflict_iff_witness :
    set_active_url_slug ⟨0, true, none⟩ "Python-Basics"
        [⟨1, "python-basics", false, false⟩] = .error () :=
  (set_active_url_slug_conflict_iff ⟨0, true, none⟩ "Python-Basics"
      [⟨1, "python-basics", false, false⟩] (by decide)).mpr
    ⟨⟨1, "python-basics", false, false⟩, by decide, rfl, by decide,
      fun k h => nomatch h⟩

/-! ### Supporting lemmas on the table-manipulation helpers -/

theorem mem_replaceFirst {p : UrlSlugRow → Bool} {f : UrlSlugRow → UrlSlugRow}
    {l : List UrlSlugRow} {r : UrlSlugRow} (h : r ∈ replaceFirst p f l) :
    r ∈ l ∨ ∃ r0, r0 ∈ l ∧ p r0 = true ∧ r = f r0 := by
  induction l with
  | nil => simp [replaceFirst] at h
  | cons a l ih =>
    unfold replaceFirst at h
    by_cases ha : p a = true
    · rw [if_pos ha] at h
      rcases List.mem_cons.mp h with h | h
      · exact Or.inr ⟨a, List.mem_cons_self a l, ha, h⟩
      · exact Or.inl (List.mem_cons_of_mem a h)
    · rw [if_neg ha] at h
      rcases List.mem_cons.mp h with h | h
      · exact Or.inl (h ▸ List.mem_cons_self a l)
      · rcases ih h with h | ⟨r0, hr0, hp, he⟩
        · exact Or.inl (List.mem_cons_of_mem a h)
        · exact Or.inr ⟨r0, List.mem_cons_of_mem a hr0, hp, he⟩

theorem exists_mem_replaceFirst {p : UrlSlugRow → Bool}
    (f : UrlSlugRow → UrlSlugRow) {l : List UrlSlugRow}
    (h : l.any p = true) :
    ∃ r0, r0 ∈ l ∧ p r0 = true ∧ f r0 ∈ replaceFirst p f l := by
  induction l with
  | nil => simp at h
  | cons a l ih =>
    by_cases ha : p a = true
    · refine ⟨a, List.mem_cons_self a l, ha, ?_⟩
      unfold replaceFirst
      rw [if_pos ha]
      exact List.mem_cons_self _ _
    · have h' : l.any p = true := by
        rcases List.any_eq_true.mp h with ⟨x, hx, hpx⟩
        rcases List.mem_cons.mp hx with rfl | hx
        · exact absurd hpx ha
        · exact List.any_eq_true.mpr ⟨x, hx, hpx⟩
      obtain ⟨r0, hr0, hp, hmem⟩ := ih h'
      refine ⟨r0, List.mem_cons_of_mem a hr0, hp, ?_⟩
      unfold replaceFirst
      rw [if_neg ha]
      exact List.mem_cons_of_mem a hmem

theorem countP_replaceFirst {p : UrlSlugRow → Bool}
    {f : UrlSlugRow → UrlSlugRow} (q : UrlSlugRow → Bool)
    (hq : ∀ r, p r = true → q (f r) = q r) (l : List UrlSlugRow) :
    (replaceFirst p f l).countP q = l.countP q := by
  induction l with
  | nil => rfl
  | cons a l ih =>
    unfold replaceFirst
    by_cases ha : p a = true
    · rw [if_pos ha]
      by_cases hqa : q a = true
      · have hqfa : q (f a) = true := (hq a ha).trans hqa
        rw [List.countP_cons_of_pos q l hqfa, List.countP_cons_of_pos q l hqa]
      · have hqfa : ¬ q (f a) = true := by
          rw [hq a ha]
          exact hqa
        rw [List.countP_cons_of_neg q l hqfa, List.countP_cons_of_neg q l hqa]
    · rw [if_neg ha]
      by_cases hqa : q a = true
      · rw [List.countP_cons_of_pos q _ hqa, List.countP_cons_of_pos q _ hqa,
          ih]
      · rw [List.countP_cons_of_neg q _ hqa, List.countP_cons_of_neg q _ hqa,
          ih]

theorem eraseFirst_sublist (p : UrlSlugRow → Bool) (l : List UrlSlugRow) :
    (eraseFirst p l).Sublist l := by
  induction l with
  | nil => exact List.Sublist.refl []
  | cons a l ih =>
    unfold eraseFirst
    by_cases ha : p a = true
    · rw [if_pos ha]
      exact List.sublist_cons_self a l
    · rw [if_neg ha]
      exact List.Sublist.cons₂ a ih

/-- A table whose texts are pairwise distinct (the model of the
`(partner, url_slug)` uniqueness constraint on `CourseUrlSlug`). -/
def slugTextsUnique (tbl : List UrlSlugRow) : Prop :=
  tbl.Pairwise (fun a b => a.urlSlug ≠ b.urlSlug)

theorem countP_text_le_one {tbl : List UrlSlugRow}
    (h : slugTextsUnique tbl) (slug : String) :
    tbl.countP (fun r => r.urlSlug == slug) ≤ 1 := by
  induction tbl with
  | nil => simp
  | cons a l ih =>
    rcases List.pairwise_cons.mp h with ⟨ha, hl⟩
    by_cases hqa : (a.urlSlug == slug) = true
    · rw [List.countP_cons_of_pos (fun r => r.urlSlug == slug) l hqa]
      have hzero : l.countP (fun r => r.urlSlug == slug) = 0 := by
        apply List.countP_eq_zero.mpr
        intro b hb
        simp only [beq_iff_eq]
        intro hbs
        exact ha b hb (beq_iff_eq.mp hqa ▸ hbs ▸ rfl)
      omega
    · rw [List.countP_cons_of_neg (fun r => r.urlSlug == slug) l hqa]
      exact ih hl

theorem officialDeleteDraftActive_sublist (c : CourseCtx)
    (tbl : List UrlSlugRow) :
    (officialDeleteDraftActive c tbl).Sublist tbl := by
  unfold officialDeleteDraftActive
  cases c.counterpartId with
  | none => exact List.Sublist.refl tbl
  | some d => exact List.filter_sublist tbl

theorem slugTextsUnique_sublist {t1 t2 : List UrlSlugRow}
    (hs : t1.Sublist t2) (h : slugTextsUnique t2) : slugTextsUnique t1 :=
  List.Pairwise.sublist hs h

theorem setActiveUrlSlugOfficial_exists_active (c : CourseCtx) (slug : String)
    (tbl : List UrlSlugRow) :
    ∃ r ∈ setActiveUrlSlugOfficial c slug tbl,
      r.courseId = c.id ∧ r.urlSlug = slug ∧ r.isActive = true ∧
        r.isActiveOnDraft = true := by
  unfold setActiveUrlSlugOfficial officialUpsert
  by_cases hany : ((officialDeleteDraftActive c tbl).any
      (fun r => r.courseId == c.id && r.urlSlug == slug)) = true
  · rw [if_pos hany]
    obtain ⟨r0, hr0, hp, hmem⟩ :=
      exists_mem_replaceFirst (officialUpsertRow slug) hany
    have hp' := (Bool.and_eq_true _ _).mp hp
    refine ⟨officialUpsertRow slug r0, ?_, ?_⟩
    · apply List.mem_map.mpr
      refine ⟨officialUpsertRow slug r0, hmem, ?_⟩
      unfold clearOtherFlags officialUpsertRow
      simp
    · exact ⟨beq_iff_eq.mp hp'.1, rfl, rfl, rfl⟩
  · rw [if_neg hany]
    refine ⟨(⟨c.id, slug, true, true⟩ : UrlSlugRow), ?_, rfl, rfl, rfl, rfl⟩
    apply List.mem_map.mpr
    refine ⟨(⟨c.id, slug, true, true⟩ : UrlSlugRow), by simp, ?_⟩
    unfold clearOtherFlags
    simp

theorem setActiveUrlSlugOfficial_cleared (c : CourseCtx) (slug : String)
    (tbl : List UrlSlugRow) :
    ∀ r ∈ setActiveUrlSlugOfficial c slug tbl,
      r.courseId = c.id → r.urlSlug ≠ slug →
        r.isActive = false ∧ r.isActiveOnDraft = false := by
  intro r hr hc ht
  unfold setActiveUrlSlugOfficial at hr
  obtain ⟨r2, hr2, hg⟩ := List.mem_map.mp hr
  unfold clearOtherFlags at hg
  by_cases hcond : (r2.courseId == c.id && (r2.isActive || r2.isActiveOnDraft)
      && r2.urlSlug != slug) = true
  · rw [if_pos hcond] at hg
    rw [← hg]
    exact ⟨rfl, rfl⟩
  · rw [if_neg hcond] at hg
    subst hg
    by_cases h2 : (r2.isActive || r2.isActiveOnDraft) = true
    · exfalso
      apply hcond
      rw [Bool.and_eq_true, Bool.and_eq_true]
      exact ⟨⟨beq_iff_eq.mpr hc, h2⟩, bne_iff_ne.mpr ht⟩
    · rw [Bool.or_eq_true] at h2
      push_neg at h2
      exact ⟨Bool.eq_false_iff.mpr h2.1, Bool.eq_false_iff.mpr h2.2⟩

theorem setActiveUrlSlugOfficial_count_slugtext (c : CourseCtx)
    (slug : String) (tbl : List UrlSlugRow) (huniq : slugTextsUnique tbl) :
    (setActiveUrlSlugOfficial c slug tbl).countP
      (fun r => r.courseId == c.id && r.urlSlug == slug) ≤ 1 := by
  have huniq1 : slugTextsUnique (officialDeleteDraftActive c tbl) :=
    slugTextsUnique_sublist (officialDeleteDraftActive_sublist c tbl) huniq
  unfold setActiveUrlSlugOfficial
  rw [List.countP_map]
  have hcongr : (officialUpsert c slug (officialDeleteDraftActive c tbl)).countP
      ((fun r => r.courseId == c.id && r.urlSlug == slug) ∘
        clearOtherFlags c slug) =
      (officialUpsert c slug (officialDeleteDraftActive c tbl)).countP
        (fun r => r.courseId == c.id && r.urlSlug == slug) := by
    apply List.countP_congr
    intro r _
    unfold clearOtherFlags
    by_cases hcond : (r.courseId == c.id && (r.isActive || r.isActiveOnDraft)
        && r.urlSlug != slug) = true
    · rw [Function.comp_apply, if_pos hcond]
    · rw [Function.comp_apply, if_neg hcond]
  rw [hcongr]
  unfold officialUpsert
  by_cases hany : ((officialDeleteDraftActive c tbl).any
      (fun r => r.courseId == c.id && r.urlSlug == slug)) = true
  · rw [if_pos hany]
    rw [countP_replaceFirst]
    · calc (officialDeleteDraftActive c tbl).countP
            (fun r => r.courseId == c.id && r.urlSlug == slug)
          ≤ (officialDeleteDraftActive c tbl).countP
            (fun r => r.urlSlug == slug) := by
            apply List.countP_mono_left
            intro x _ hx
            exact ((Bool.and_eq_true _ _).mp hx).2
        _ ≤ 1 := countP_text_le_one huniq1 slug
    · intro r hp
      have hc := beq_iff_eq.mp ((Bool.and_eq_true _ _).mp hp).1
      have hL : ((officialUpsertRow slug r).courseId == c.id &&
          (officialUpsertRow slug r).urlSlug == slug) = true := by
        unfold officialUpsertRow
        simp [hc]
      rw [hL, hp]
  · rw [if_neg hany]
    rw [List.countP_append]
    have hz : (officialDeleteDraftActive c tbl).countP
        (fun r => r.courseId == c.id && r.urlSlug == slug) = 0 := by
      apply List.countP_eq_zero.mpr
      intro a ha hpa
      exact absurd (List.any_eq_true.mpr ⟨a, ha, hpa⟩) hany
    rw [hz]
    simp

theorem setActiveUrlSlugOfficial_countP_le (c : CourseCtx) (slug : String)
    (tbl : List UrlSlugRow) (p : UrlSlugRow → Bool)
    (hpc : ∀ r, r.courseId = c.id → p r = false) :
    (setActiveUrlSlugOfficial c slug tbl).countP p ≤ tbl.countP p := by
  unfold setActiveUrlSlugOfficial
  rw [List.countP_map]
  have hcongr : (officialUpsert c slug (officialDeleteDraftActive c tbl)).countP
      (p ∘ clearOtherFlags c slug) =
      (officialUpsert c slug (officialDeleteDraftActive c tbl)).countP p := by
    apply List.countP_congr
    intro r _
    rw [Function.comp_apply]
    unfold clearOtherFlags
    by_cases hcond : (r.courseId == c.id && (r.isActive || r.isActiveOnDraft)
        && r.urlSlug != slug) = true
    · rw [if_pos hcond]
      have hc : r.courseId = c.id :=
        beq_iff_eq.mp ((Bool.and_eq_true _ _).mp
          ((Bool.and_eq_true _ _).mp hcond).1).1
      have h1 : p { r with isActive := false, isActiveOnDraft := false }
          = false := hpc _ hc
      rw [h1, hpc r hc]
    · rw [if_neg hcond]
  rw [hcongr]
  have hle1 : (officialUpsert c slug (officialDeleteDraftActive c tbl)).countP p
      ≤ (officialDeleteDraftActive c tbl).countP p := by
    unfold officialUpsert
    by_cases hany : ((officialDeleteDraftActive c tbl).any
        (fun r => r.courseId == c.id && r.urlSlug == slug)) = true
    · rw [if_pos hany]
      rw [countP_replaceFirst]
      intro r hp
      have hc : r.courseId = c.id :=
        beq_iff_eq.mp ((Bool.and_eq_true _ _).mp hp).1
      have h1 : p (officialUpsertRow slug r) = false := hpc _ hc
      rw [h1, hpc r hc]
    · rw [if_neg hany, List.countP_append]
      have hz : List.countP p [(⟨c.id, slug, true, true⟩ : UrlSlugRow)] = 0 := by
        simp [List.countP_cons, hpc ⟨c.id, slug, true, true⟩ rfl]
      omega
  calc (officialUpsert c slug (officialDeleteDraftActive c tbl)).countP p
      ≤ (officialDeleteDraftActive c tbl).countP p := hle1
    _ ≤ tbl.countP p :=
        (officialDeleteDraftActive_sublist c tbl).countP_le p

/-- C5: after a successful official-side activation, a row of the course with
the requested text is active, every other row of the course has both flags
cleared, the course has at most one active and at most one active-on-draft
row, and the same at-most-one invariant is preserved for every other
course. -/
theorem set_active_url_slug_official_spec (c : CourseCtx) (slug : String)
    (tbl tbl' : List UrlSlugRow) (hdraft : c.draft = false)
    (huniq : slugTextsUnique tbl)
    (hok : set_active_url_slug c slug tbl = .ok tbl') :
    (∃ r ∈ tbl', r.courseId = c.id ∧ r.urlSlug = slug ∧ r.isActive = true) ∧
    (∀ r ∈ tbl', r.courseId = c.id → r.urlSlug ≠ slug →
      r.isActive = false ∧ r.isActiveOnDraft = false) ∧
    tbl'.countP (fun r => r.courseId == c.id && r.isActive) ≤ 1 ∧
    tbl'.countP (fun r => r.courseId == c.id && r.isActiveOnDraft) ≤ 1 ∧
    (∀ k, k ≠ c.id →
      (tbl.countP (fun r => r.courseId == k && r.isActive) ≤ 1 →
        tbl'.countP (fun r => r.courseId == k && r.isActive) ≤ 1) ∧
      (tbl.countP (fun r => r.courseId == k && r.isActiveOnDraft) ≤ 1 →
        tbl'.countP (fun r => r.courseId == k && r.isActiveOnDraft) ≤ 1)) := by
  have htbl' : tbl' = setActiveUrlSlugOfficial c slug tbl := by
    unfold set_active_url_slug at hok
    by_cases hguard : (slug != "" && slugInUseElsewhere c slug tbl) = true
    · rw [if_pos hguard] at hok
      exact absurd hok (by simp)
    · rw [if_neg hguard, hdraft] at hok
      simp at hok
      exact hok.symm
  subst htbl'
  have hclr := setActiveUrlSlugOfficial_cleared c slug tbl
  have hmono : ∀ fl : UrlSlugRow → Bool, (∀ r, fl r = true →
        (r.isActive = true ∨ r.isActiveOnDraft = true)) →
      (setActiveUrlSlugOfficial c slug tbl).countP
        (fun r => r.courseId == c.id && fl r) ≤ 1 := by
    intro fl hfl
    calc (setActiveUrlSlugOfficial c slug tbl).countP
          (fun r => r.courseId == c.id && fl r)
        ≤ (setActiveUrlSlugOfficial c slug tbl).countP
          (fun r => r.courseId == c.id && r.urlSlug == slug) := by
          apply List.countP_mono_left
          intro x hx hpx
          have hc := beq_iff_eq.mp ((Bool.and_eq_true _ _).mp hpx).1
          have hact := ((Bool.and_eq_true _ _).mp hpx).2
          rw [Bool.and_eq_true]
          refine ⟨beq_iff_eq.mpr hc, ?_⟩
          by_contra hneq
          have hneq' : x.urlSlug ≠ slug :=
            fun he => hneq (beq_iff_eq.mpr he)
          have hcl := hclr x hx hc hneq'
          rcases hfl x hact with hcase | hcase
          · rw [hcl.1] at hcase
            exact Bool.false_ne_true hcase
          · rw [hcl.2] at hcase
            exact Bool.false_ne_true hcase
      _ ≤ 1 := setActiveUrlSlugOfficial_count_slugtext c slug tbl huniq
  refine ⟨?_, hclr, ?_, ?_, ?_⟩
  · obtain ⟨r, hr, h1, h2, h3, _⟩ :=
      setActiveUrlSlugOfficial_exists_active c slug tbl
    exact ⟨r, hr, h1, h2, h3⟩
  · exact hmono (fun r => r.isActive) (fun r h => Or.inl h)
  · exact hmono (fun r => r.isActiveOnDraft) (fun r h => Or.inr h)
  · intro k hk
    have hpc : ∀ fl : UrlSlugRow → Bool, ∀ r : UrlSlugRow,
        r.courseId = c.id → (r.courseId == k && fl r) = false := by
      intro fl r hc
      have hne : (r.courseId == k) = false := by
        rw [beq_eq_false_iff_ne, hc]
        exact fun he => hk he.symm
      rw [hne, Bool.false_and]
    constructor
    · intro hle
      calc (setActiveUrlSlugOfficial c slug tbl).countP
            (fun r => r.courseId == k && r.isActive)
          ≤ tbl.countP (fun r => r.courseId == k && r.isActive) :=
            setActiveUrlSlugOfficial_countP_le c slug tbl _
              (hpc (fun r => r.isActive))
        _ ≤ 1 := hle
    · intro hle
      calc (setActiveUrlSlugOfficial c slug tbl).countP
            (fun r => r.courseId == k && r.isActiveOnDraft)
          ≤ tbl.countP (fun r => r.courseId == k && r.isActiveOnDraft) :=
            setActiveUrlSlugOfficial_countP_le c slug tbl _
              (hpc (fun r => r.isActiveOnDraft))
        _ ≤ 1 := hle

/-- Witness for `set_active_url_slug_official_spec`: activating "new-slug" on
official course 1 (draft counterpart 0) activates the new row. -/
theorem set_active_url_slug_official_spec_witness :
    ∃ r ∈ ([⟨1, "pub", false, false⟩, ⟨1, "new-slug", true, true⟩] :
        List UrlSlugRow),
      r.courseId = 1 ∧ r.urlSlug = "new-slug" ∧ r.isActive = true :=
  (set_active_url_slug_official_spec ⟨1, false, some 0⟩ "new-slug"
    [⟨0, "draft-slug", true, false⟩, ⟨1, "pub", true, true⟩]
    [⟨1, "pub", false, false⟩, ⟨1, "new-slug", true, true⟩]
    rfl (by constructor <;> simp [slugTextsUnique]) rfl).1

theorem length_replaceFirst (p : UrlSlugRow → Bool)
    (f : UrlSlugRow → UrlSlugRow) (l : List UrlSlugRow) :
    (replaceFirst p f l).length = l.length := by
  induction l with
  | nil => rfl
  | cons a l ih =>
    unfold replaceFirst
    by_cases ha : p a = true
    · rw [if_pos ha]
      simp
    · rw [if_neg ha]
      simp [ih]

theorem mem_eraseFirst_of_neg {p : UrlSlugRow → Bool} {l : List UrlSlugRow}
    {r : UrlSlugRow} (hr : r ∈ l) (hp : p r = false) : r ∈ eraseFirst p l := by
  induction l with
  | nil => exact absurd hr (List.not_mem_nil r)
  | cons a l ih =>
    unfold eraseFirst
    by_cases ha : p a = true
    · rw [if_pos ha]
      rcases List.mem_cons.mp hr with rfl | hr
      · rw [hp] at ha
        exact absurd ha (by simp)
      · exact hr
    · rw [if_neg ha]
      rcases List.mem_cons.mp hr with rfl | hr
      · exact List.mem_cons_self _ _
      · exact List.mem_cons_of_mem a (ih hr)

theorem eraseFirst_removes_course (cid : Nat) (p : UrlSlugRow → Bool)
    (l : List UrlSlugRow)
    (hp : ∀ r ∈ l, r.courseId = cid → p r = true)
    (hpc : ∀ r, p r = true → r.courseId = cid)
    (hcount : l.countP (fun r => r.courseId == cid) ≤ 1) :
    ∀ r ∈ eraseFirst p l, r.courseId ≠ cid := by
  induction l with
  | nil => intro r hr; exact absurd hr (List.not_mem_nil r)
  | cons a l ih =>
    intro r hr
    unfold eraseFirst at hr
    by_cases ha : p a = true
    · rw [if_pos ha] at hr
      have hac : a.courseId = cid := hpc a ha
      have hcz : l.countP (fun s => s.courseId == cid) = 0 := by
        rw [List.countP_cons_of_pos (fun s => s.courseId == cid) l
          (beq_iff_eq.mpr hac)] at hcount
        omega
      intro hrc
      exact (List.countP_eq_zero.mp hcz r hr) (beq_iff_eq.mpr hrc)
    · rw [if_neg ha] at hr
      rcases List.mem_cons.mp hr with rfl | hr
      · intro hrc
        exact (by simp [hp r (List.mem_cons_self r l) hrc] at ha)
      · have hac : a.courseId ≠ cid := by
          intro hx
          exact (by simp [hp a (List.mem_cons_self a l) hx] at ha)
        refine ih (fun s hs hsc => hp s (List.mem_cons_of_mem a hs) hsc)
          ?_ r hr
        rw [List.countP_cons_of_neg (fun s => s.courseId == cid) l
          (by simp [hac])] at hcount
        exact hcount

theorem slugTextsUnique_map (f : UrlSlugRow → UrlSlugRow)
    (hf : ∀ r, (f r).urlSlug = r.urlSlug) {l : List UrlSlugRow}
    (hl : slugTextsUnique l) : slugTextsUnique (l.map f) := by
  unfold slugTextsUnique at hl ⊢
  apply List.pairwise_map.mpr
  apply hl.imp
  intro a b hab
  rw [hf a, hf b]
  exact hab

theorem slugTextsUnique_append_single {l : List UrlSlugRow}
    (hl : slugTextsUnique l) (new : UrlSlugRow)
    (hnew : ∀ s ∈ l, s.urlSlug ≠ new.urlSlug) :
    slugTextsUnique (l ++ [new]) := by
  unfold slugTextsUnique at hl ⊢
  apply List.pairwise_append.mpr
  refine ⟨hl, List.pairwise_singleton _ _, ?_⟩
  intro a ha b hb
  rw [List.mem_singleton] at hb
  subst hb
  exact hnew a ha

theorem slugTextsUnique_replaceFirst {p : UrlSlugRow → Bool} (slug : String)
    {f : UrlSlugRow → UrlSlugRow} (hf : ∀ r, (f r).urlSlug = slug)
    {l : List UrlSlugRow} (hl : slugTextsUnique l)
    (hother : ∀ s ∈ l, p s = false → s.urlSlug ≠ slug)
    (hcount : l.countP p ≤ 1) :
    slugTextsUnique (replaceFirst p f l) := by
  induction l with
  | nil => exact hl
  | cons a l ih =>
    unfold replaceFirst
    rcases List.pairwise_cons.mp hl with ⟨ha, hl'⟩
    by_cases hpa : p a = true
    · rw [if_pos hpa]
      apply List.pairwise_cons.mpr
      refine ⟨?_, hl'⟩
      intro b hb
      rw [hf a]
      have hcl : l.countP p = 0 := by
        rw [List.countP_cons_of_pos p l hpa] at hcount
        omega
      have hpb : p b = false :=
        Bool.eq_false_iff.mpr (List.countP_eq_zero.mp hcl b hb)
      exact (hother b (List.mem_cons_of_mem a hb) hpb).symm
    · rw [if_neg hpa]
      apply List.pairwise_cons.mpr
      constructor
      · intro b hb
        rcases mem_replaceFirst hb with hbl | ⟨r0, hr0, hpr0, rfl⟩
        · exact ha b hbl
        · rw [hf r0]
          exact hother a (List.mem_cons_self a l) (Bool.eq_false_iff.mpr hpa)
      · refine ih hl'
          (fun s hs hps => hother s (List.mem_cons_of_mem a hs) hps) ?_
        rw [List.countP_cons_of_neg p l hpa] at hcount
        exact hcount

theorem draftUpsert_exists (c : CourseCtx) (slug : String)
    (tbl : List UrlSlugRow)
    (haod : ∀ r ∈ tbl, r.courseId = c.id → r.isActiveOnDraft = false) :
    ∃ r ∈ draftUpdateOrCreateActive c slug tbl,
      r.courseId = c.id ∧ r.urlSlug = slug ∧ r.isActive = true ∧
        r.isActiveOnDraft = false := by
  unfold draftUpdateOrCreateActive
  by_cases hany : (tbl.any (fun r => r.courseId == c.id && r.isActive)) = true
  · rw [if_pos hany]
    obtain ⟨r0, hr0, hp, hmem⟩ := exists_mem_replaceFirst _ hany
    have hc := beq_iff_eq.mp ((Bool.and_eq_true _ _).mp hp).1
    exact ⟨_, hmem, hc, rfl, rfl, haod r0 hr0 hc⟩
  · rw [if_neg hany]
    exact ⟨(⟨c.id, slug, true, false⟩ : UrlSlugRow), by simp, rfl, rfl, rfl,
      rfl⟩

theorem draftUpsert_length (c : CourseCtx) (slug : String)
    (tbl : List UrlSlugRow) :
    ((tbl.any (fun r => r.courseId == c.id && r.isActive)) = true →
      (draftUpdateOrCreateActive c slug tbl).length = tbl.length) ∧
    ((tbl.any (fun r => r.courseId == c.id && r.isActive)) = false →
      (draftUpdateOrCreateActive c slug tbl).length = tbl.length + 1) := by
  unfold draftUpdateOrCreateActive
  constructor
  · intro h
    rw [if_pos h]
    exact length_replaceFirst _ _ _
  · intro h
    rw [if_neg (by simp [h])]
    simp

theorem draftUpsert_unique (c : CourseCtx) (slug : String)
    (tbl : List UrlSlugRow) (huniq : slugTextsUnique tbl)
    (hother : ∀ s ∈ tbl, (s.courseId == c.id && s.isActive) = false →
      s.urlSlug ≠ slug)
    (hcount : tbl.countP (fun r => r.courseId == c.id && r.isActive) ≤ 1) :
    slugTextsUnique (draftUpdateOrCreateActive c slug tbl) := by
  unfold draftUpdateOrCreateActive
  by_cases hany : (tbl.any (fun r => r.courseId == c.id && r.isActive)) = true
  · rw [if_pos hany]
    exact slugTextsUnique_replaceFirst slug (fun r => rfl) huniq hother hcount
  · rw [if_neg hany]
    apply slugTextsUnique_append_single huniq
    intro s hs
    exact hother s hs (Bool.eq_false_iff.mpr
      (fun hx => hany (List.any_eq_true.mpr ⟨s, hs, hx⟩)))

theorem draftLoopFix_fields (off : Nat) (slug : String) (r : UrlSlugRow) :
    (draftLoopFix off slug r).courseId = r.courseId ∧
    (draftLoopFix off slug r).urlSlug = r.urlSlug ∧
    (draftLoopFix off slug r).isActive = r.isActive := by
  unfold draftLoopFix
  split <;> exact ⟨rfl, rfl, rfl⟩

theorem draftLoopFix_of_ne (off : Nat) (slug : String) (r : UrlSlugRow)
    (h : r.courseId ≠ off) : draftLoopFix off slug r = r := by
  unfold draftLoopFix
  rw [if_neg]
  intro hcond
  exact h (beq_iff_eq.mp ((Bool.and_eq_true _ _).mp hcond).1)

theorem listAny_congr {α : Type} {p q : α → Bool} {l : List α}
    (h : ∀ a ∈ l, p a = q a) : l.any p = l.any q := by
  induction l with
  | nil => rfl
  | cons a l ih =>
    simp only [List.any_cons]
    rw [h a (List.mem_cons_self a l),
      ih (fun b hb => h b (List.mem_cons_of_mem a hb))]

/-- C6 (amended): for a draft course, `set_active_url_slug` searches the
official counterpart's slug history (when one exists) for the exact text.  If
found, that historical row is reactivated by setting `is_active_on_draft`, no
row is created, and the previously active draft-side row is deleted — the
course keeps no row of its own.  If not found (or there is no counterpart),
the draft's own active row is updated in place to the new text, or a new row
is created carrying `is_active` only (`is_active_on_draft` stays `false`);
slug texts remain globally unduplicated.  (Stated for draft-side
well-formed tables: the course's own rows are active with
`is_active_on_draft` unset, there is at most one of them, and texts are
unique.) -/
theorem set_active_url_slug_draft_amended (c : CourseCtx) (slug : String)
    (tbl tbl' : List UrlSlugRow)
    (hdraft : c.draft = true) (hslug : slug ≠ "")
    (hcc : ∀ off, c.counterpartId = some off → off ≠ c.id)
    (hall : ∀ r ∈ tbl, r.courseId = c.id →
      r.isActive = true ∧ r.isActiveOnDraft = false)
    (hcount : tbl.countP (fun r => r.courseId == c.id) ≤ 1)
    (huniq : slugTextsUnique tbl)
    (hok : set_active_url_slug c slug tbl = .ok tbl') :
    (∀ off, c.counterpartId = some off →
      tbl.any (fun r => r.courseId == off && r.urlSlug == slug) = true →
      (∃ r ∈ tbl', r.courseId = off ∧ r.urlSlug = slug ∧
        r.isActiveOnDraft = true) ∧
      tbl'.length ≤ tbl.length ∧
      (∀ r ∈ tbl', r.courseId ≠ c.id)) ∧
    ((c.counterpartId = none ∨ (∃ off, c.counterpartId = some off ∧
        tbl.any (fun r => r.courseId == off && r.urlSlug == slug) = false)) →
      (∃ r ∈ tbl', r.courseId = c.id ∧ r.urlSlug = slug ∧
        r.isActive = true ∧ r.isActiveOnDraft = false) ∧
      (tbl.any (fun r => r.courseId == c.id && r.isActive) = true →
        tbl'.length = tbl.length) ∧
      (tbl.any (fun r => r.courseId == c.id && r.isActive) = false →
        tbl'.length = tbl.length + 1)) ∧
    slugTextsUnique tbl' := by
  have hbne : (slug != "") = true := bne_iff_ne.mpr hslug
  by_cases hguardT : (slug != "" && slugInUseElsewhere c slug tbl) = true
  · unfold set_active_url_slug at hok
    rw [if_pos hguardT] at hok
    exact absurd hok (by simp)
  · have hInUse : slugInUseElsewhere c slug tbl = false := by
      have h1 : (slug != "" && slugInUseElsewhere c slug tbl) = false :=
        Bool.eq_false_iff.mpr hguardT
      cases hcase : slugInUseElsewhere c slug tbl with
      | false => rfl
      | true =>
        rw [hbne, hcase] at h1
        simp at h1
    have htbl' : tbl' = setActiveUrlSlugDraft c slug tbl := by
      unfold set_active_url_slug at hok
      rw [if_neg hguardT, hdraft] at hok
      simp at hok
      exact hok.symm
    subst htbl'
    have hotherGen : ∀ s ∈ tbl, s.courseId ≠ c.id →
        (∀ off2, c.counterpartId = some off2 → s.courseId ≠ off2) →
        s.urlSlug ≠ slug := by
      intro s hs hsc hsoff hts
      have hpred : (lowerStr s.urlSlug == lowerStr slug &&
          s.courseId != c.id &&
          (match c.counterpartId with
           | some k => s.courseId != k
           | none => true)) = true := by
        rw [Bool.and_eq_true, Bool.and_eq_true]
        refine ⟨⟨beq_iff_eq.mpr (by rw [hts]), bne_iff_ne.mpr hsc⟩, ?_⟩
        cases hk : c.counterpartId with
        | none => rfl
        | some k => exact bne_iff_ne.mpr (hsoff k hk)
      have hcon : slugInUseElsewhere c slug tbl = true :=
        List.any_eq_true.mpr ⟨s, hs, hpred⟩
      rw [hcon] at hInUse
      exact Bool.false_ne_true hInUse.symm
    have hcact : tbl.countP (fun r => r.courseId == c.id && r.isActive) ≤ 1 :=
      le_trans (List.countP_mono_left
        (fun x _ hpx => ((Bool.and_eq_true _ _).mp hpx).1)) hcount
    cases hcp : c.counterpartId with
    | none =>
      have hdef : setActiveUrlSlugDraft c slug tbl =
          draftUpdateOrCreateActive c slug tbl := by
        unfold setActiveUrlSlugDraft
        rw [hcp]
      rw [hdef]
      refine ⟨?_, ?_, ?_⟩
      · intro off hoff
        exact absurd hoff (by simp)
      · intro _
        exact ⟨draftUpsert_exists c slug tbl
            (fun r hr hc => (hall r hr hc).2),
          (draftUpsert_length c slug tbl).1,
          (draftUpsert_length c slug tbl).2⟩
      · apply draftUpsert_unique c slug tbl huniq ?_ hcact
        intro s hs hpred
        by_cases hsc : s.courseId = c.id
        · exfalso
          rw [beq_iff_eq.mpr hsc, (hall s hs hsc).1] at hpred
          simp at hpred
        · exact hotherGen s hs hsc (fun off2 hoff2 => by
            rw [hcp] at hoff2
            exact absurd hoff2 (by simp))
    | some off =>
      have hoffne : off ≠ c.id := hcc off hcp
      have hfieldsAll : ∀ r : UrlSlugRow,
          (draftLoopFix off slug r).courseId = r.courseId ∧
          (draftLoopFix off slug r).urlSlug = r.urlSlug ∧
          (draftLoopFix off slug r).isActive = r.isActive :=
        draftLoopFix_fields off slug
      have huniq1 : slugTextsUnique (tbl.map (draftLoopFix off slug)) :=
        slugTextsUnique_map _ (fun r => (hfieldsAll r).2.1) huniq
      have hcount1 : (tbl.map (draftLoopFix off slug)).countP
          (fun r => r.courseId == c.id) ≤ 1 := by
        rw [List.countP_map]
        calc tbl.countP ((fun r => r.courseId == c.id) ∘
              draftLoopFix off slug)
            = tbl.countP (fun r => r.courseId == c.id) := by
              apply List.countP_congr
              intro r _
              rw [Function.comp_apply, (hfieldsAll r).1]
          _ ≤ 1 := hcount
      have hall1 : ∀ r ∈ tbl.map (draftLoopFix off slug),
          r.courseId = c.id → r.isActive = true ∧ r.isActiveOnDraft = false := by
        intro s hs hsc
        obtain ⟨r, hr, he⟩ := List.mem_map.mp hs
        subst he
        rw [(hfieldsAll r).1] at hsc
        have hne : r.courseId ≠ off := by
          rw [hsc]
          exact fun hx => hoffne hx.symm
        rw [draftLoopFix_of_ne off slug r hne]
        exact hall r hr hsc
      by_cases hfound :
          (tbl.any (fun r => r.courseId == off && r.urlSlug == slug)) = true
      · have hdef : setActiveUrlSlugDraft c slug tbl =
            eraseFirst (fun r => r.courseId == c.id && r.isActive)
              (tbl.map (draftLoopFix off slug)) := by
          unfold setActiveUrlSlugDraft
          rw [hcp]
          exact if_pos hfound
        rw [hdef]
        refine ⟨?_, ?_, ?_⟩
        · intro off' hoff' _
          have : off = off' := Option.some.inj hoff'
          subst this
          obtain ⟨r0, hr0, hp0⟩ := List.any_eq_true.mp hfound
          have hp0' := (Bool.and_eq_true _ _).mp hp0
          have hr0off : r0.courseId = off := beq_iff_eq.mp hp0'.1
          have hr0slug : r0.urlSlug = slug := beq_iff_eq.mp hp0'.2
          have himg : draftLoopFix off slug r0 =
              { r0 with isActiveOnDraft := true } := by
            unfold draftLoopFix
            rw [if_pos (by
              rw [Bool.and_eq_true]
              exact ⟨hp0'.1, by rw [hp0'.2, Bool.or_true]⟩)]
            rw [hp0'.2]
          refine ⟨?_, ?_, ?_⟩
          · refine ⟨draftLoopFix off slug r0, ?_, ?_⟩
            · apply mem_eraseFirst_of_neg
                (List.mem_map_of_mem _ hr0)
              rw [himg]
              have : (({ r0 with isActiveOnDraft := true } :
                  UrlSlugRow).courseId == c.id) = false := by
                rw [beq_eq_false_iff_ne]
                show r0.courseId ≠ c.id
                rw [hr0off]
                exact hoffne
              rw [this, Bool.false_and]
            · rw [himg]
              exact ⟨hr0off, hr0slug, rfl⟩
          · calc (eraseFirst (fun r => r.courseId == c.id && r.isActive)
                  (tbl.map (draftLoopFix off slug))).length
                ≤ (tbl.map (draftLoopFix off slug)).length :=
                  (eraseFirst_sublist _ _).length_le
              _ = tbl.length := List.length_map _ _
          · apply eraseFirst_removes_course c.id
              (fun r => r.courseId == c.id && r.isActive)
              (tbl.map (draftLoopFix off slug))
            · intro r hr hrc
              rw [beq_iff_eq.mpr hrc, (hall1 r hr hrc).1, Bool.true_and]
            · intro r hpr
              exact beq_iff_eq.mp ((Bool.and_eq_true _ _).mp hpr).1
            · exact hcount1
        · intro hyp
          exfalso
          rcases hyp with hyp | ⟨off2, hoff2, hfound2⟩
          · exact absurd hyp (by simp)
          · have : off = off2 := Option.some.inj hoff2
            subst this
            rw [hfound] at hfound2
            exact Bool.false_ne_true hfound2.symm
        · exact slugTextsUnique_sublist (eraseFirst_sublist _ _) huniq1
      · have hdef : setActiveUrlSlugDraft c slug tbl =
            draftUpdateOrCreateActive c slug
              (tbl.map (draftLoopFix off slug)) := by
          unfold setActiveUrlSlugDraft
          rw [hcp]
          exact if_neg hfound
        rw [hdef]
        have hanyeq : (tbl.map (draftLoopFix off slug)).any
            (fun r => r.courseId == c.id && r.isActive) =
            tbl.any (fun r => r.courseId == c.id && r.isActive) := by
          rw [List.any_map]
          apply listAny_congr
          intro r _
          rw [Function.comp_apply, (hfieldsAll r).1, (hfieldsAll r).2.2]
        have hlen1 : (tbl.map (draftLoopFix off slug)).length = tbl.length :=
          List.length_map _ _
        refine ⟨?_, ?_, ?_⟩
        · intro off' hoff' hfound'
          exfalso
          have : off = off' := Option.some.inj hoff'
          subst this
          rw [hfound'] at hfound
          exact hfound rfl
        · intro _
          refine ⟨draftUpsert_exists c slug _
              (fun r hr hc => (hall1 r hr hc).2), ?_, ?_⟩
          · intro hany
            rw [(draftUpsert_length c slug _).1 (by rw [hanyeq]; exact hany)]
            exact hlen1
          · intro hany
            rw [(draftUpsert_length c slug _).2 (by rw [hanyeq]; exact hany)]
            rw [hlen1]
        · apply draftUpsert_unique c slug _ huniq1 ?_ ?_
          · intro s hs hpred
            obtain ⟨r, hr, he⟩ := List.mem_map.mp hs
            subst he
            rw [(hfieldsAll r).2.1]
            have hpredr : (r.courseId == c.id && r.isActive) = false := by
              rw [← (hfieldsAll r).1, ← (hfieldsAll r).2.2]
              exact hpred
            by_cases hsc : r.courseId = c.id
            · exfalso
              rw [beq_iff_eq.mpr hsc, (hall r hr hsc).1] at hpredr
              simp at hpredr
            · by_cases hsoff : r.courseId = off
              · intro hts
                apply hfound
                exact List.any_eq_true.mpr ⟨r, hr,
                  by rw [Bool.and_eq_true]
                     exact ⟨beq_iff_eq.mpr hsoff, beq_iff_eq.mpr hts⟩⟩
              · exact hotherGen r hr hsc (fun off2 hoff2 => by
                  rw [hcp] at hoff2
                  have : off = off2 := Option.some.inj hoff2
                  subst this
                  exact hsoff)
          · calc (tbl.map (draftLoopFix off slug)).countP
                  (fun r => r.courseId == c.id && r.isActive)
                ≤ (tbl.map (draftLoopFix off slug)).countP
                  (fun r => r.courseId == c.id) :=
                  List.countP_mono_left
                    (fun x _ hpx => ((Bool.and_eq_true _ _).mp hpx).1)
              _ ≤ 1 := hcount1

/-- Counterexample to C6 as stated: for a draft course with no prior history,
activating a fresh slug creates a row flagged `is_active` — not
"active-on-draft only" as the claim asserts: the created row has
`is_active_on_draft = false` and `is_active = true`. -/
theorem set_active_url_slug_draft_counterexample :
    set_active_url_slug ⟨0, true, none⟩ "intro-to-x" [] =
      .ok [⟨0, "intro-to-x", true, false⟩] ∧
    ∀ r ∈ setActiveUrlSlugDraft ⟨0, true, none⟩ "intro-to-x" [],
      r.isActiveOnDraft = false ∧ r.isActive = true :=
  ⟨rfl, by decide⟩

/-- Witness for `set_active_url_slug_draft_amended`: reactivating a slug found
in the official counterpart's history flags that historical row
active-on-draft. -/
theorem set_active_url_slug_draft_amended_witness :
    ∃ r ∈ setActiveUrlSlugDraft ⟨0, true, some 1⟩ "old-slug"
        [⟨0, "cur", true, false⟩, ⟨1, "old-slug", false, false⟩,
         ⟨1, "pub", true, true⟩],
      r.courseId = 1 ∧ r.urlSlug = "old-slug" ∧ r.isActiveOnDraft = true :=
  ((set_active_url_slug_draft_amended ⟨0, true, some 1⟩ "old-slug"
      [⟨0, "cur", true, false⟩, ⟨1, "old-slug", false, false⟩,
       ⟨1, "pub", true, true⟩]
      (setActiveUrlSlugDraft ⟨0, true, some 1⟩ "old-slug"
        [⟨0, "cur", true, false⟩, ⟨1, "old-slug", false, false⟩,
         ⟨1, "pub", true, true⟩])
      rfl (by decide)
      (fun off h => by
        injection h with h2
        subst h2
        decide)
      (by decide) (by decide)
      (by unfold slugTextsUnique; decide) rfl).1 1 rfl (by decide)).1

/-! ## Seat model: `CourseRun.validate_seat_upgrade` and
`CourseRun.update_or_create_seats`

Seat rows are reduced to their type slugs: the claim under verification is
about which seat-type sets are accepted, and `update_or_create` keyed on
`(course_run, type, draft)` leaves exactly one draft seat per requested
type. -/

/-- `Seat.AUDIT` (models.py:3200). -/
def AUDIT : String := "audit"

/-- `Seat.VERIFIED` (models.py:3201). -/
def VERIFIED : String := "verified"

/-- `Seat.ENTITLEMENT_MODES` (models.py:3210). -/
def ENTITLEMENT_MODES : List String :=
  ["verified", "professional", "executive-education",
   "paid-executive-education", "paid-bootcamp"]

/-- `Seat.REQUIRES_AUDIT_SEAT` (models.py:3214). -/
def REQUIRES_AUDIT_SEAT : List String := [VERIFIED]

/-- The `new_types` set of `validate_seat_upgrade` (models.py:2800): the
requested types, with Audit added when any requested type requires an audit
seat. -/
def augmentedSeatTypes (seatTypes : List String) : List String :=
  if seatTypes.any (fun t => REQUIRES_AUDIT_SEAT.contains t) then
    AUDIT :: seatTypes
  else seatTypes

/-- `CourseRun.validate_seat_upgrade` (models.py:2793): `true` means the
`ValidationError` is raised — an official version exists and some of its seat
types is missing from the augmented requested set. -/
def validate_seat_upgrade (officialSeatTypes : Option (List String))
    (seatTypes : List String) : Bool :=
  match officialSeatTypes with
  | none => false
  | some oldTypes =>
    oldTypes.any (fun t => !(augmentedSeatTypes seatTypes).contains t)

/-- `CourseRun.update_or_create_seats` (models.py:2829) at seat-type level:
validate first (aborting with no seat written), then update-or-create one
draft seat per requested type and delete the seats of dropped types, leaving
exactly the requested type set. -/
def update_or_create_seats (officialSeatTypes : Option (List String))
    (seatTypes : List String) : Except Unit (List String) :=
  if validate_seat_upgrade officialSeatTypes seatTypes then .error ()
  else .ok seatTypes.eraseDups

/-- C10: with an official counterpart, `update_or_create_seats` raises a
conflict error — persisting nothing — exactly when the requested seat types
(after automatically adding Audit for types that require an audit seat) would
drop a seat type present on the official run; with no official counterpart
any switch of seat types is accepted. -/
theorem update_or_create_seats_conflict
    (officialSeatTypes : Option (List String)) (seatTypes : List String) :
    (∀ old, officialSeatTypes = some old →
      (update_or_create_seats officialSeatTypes seatTypes = .error () ↔
        ∃ t ∈ old, t ∉ augmentedSeatTypes seatTypes)) ∧
    (officialSeatTypes = none →
      update_or_create_seats officialSeatTypes seatTypes =
        .ok seatTypes.eraseDups) := by
  constructor
  · intro old hold
    subst hold
    unfold update_or_create_seats validate_seat_upgrade
    by_cases hv : (old.any
        (fun t => !(augmentedSeatTypes seatTypes).contains t)) = true
    · rw [if_pos hv]
      constructor
      · intro _
        obtain ⟨t, ht, hnc⟩ := List.any_eq_true.mp hv
        refine ⟨t, ht, ?_⟩
        intro hmem
        rw [Bool.not_eq_true'] at hnc
        have helem : List.elem t (augmentedSeatTypes seatTypes) = true :=
          List.elem_iff.mpr hmem
        rw [show List.elem t (augmentedSeatTypes seatTypes) =
          (augmentedSeatTypes seatTypes).contains t from rfl, hnc] at helem
        exact Bool.false_ne_true helem
      · intro _
        rfl
    · rw [if_neg hv]
      constructor
      · intro h
        exact absurd h (by simp)
      · rintro ⟨t, ht, hnmem⟩
        exfalso
        apply hv
        apply List.any_eq_true.mpr
        refine ⟨t, ht, ?_⟩
        rw [Bool.not_eq_true']
        rw [show (augmentedSeatTypes seatTypes).contains t =
          List.elem t (augmentedSeatTypes seatTypes) from rfl]
        exact Bool.eq_false_iff.mpr (fun hx => hnmem (List.elem_iff.mp hx))
  · intro hnone
    subst hnone
    rfl

/-- Witness for `update_or_create_seats_conflict`: official seats
{audit, verified}, requested {professional} (no audit added) drops both —
the call errors. -/
theorem update_or_create_seats_conflict_witness :
    update_or_create_seats (some ["audit", "verified"]) ["professional"] =
      .error () :=
  ((update_or_create_seats_conflict (some ["audit", "verified"])
      ["professional"]).1 ["audit", "verified"] rfl).mpr
    ⟨"audit", by decide, by decide⟩

/-! ## State-machine model: `CourseRun.save`, `CourseRun.handle_status_change`
and `CourseRun.publish`

The model follows one draft course run and its optional official pair through
a save.  External collaborators (marketing-site push, ecommerce/LMS push,
email delivery itself, the end-change seat-deadline reset — our flows never
change `end` — and the retired-program bookkeeping) are outside the state;
the notification log records which emails were fired.  The recursion
`save → handle_status_change → publish → save` is bounded by a fuel
parameter; the source recursion is finite because each nested save moves the
status strictly forward. -/

/-- Notifications emitted by the state machine (the `emails` module calls in
`handle_status_change`). -/
inductive Notified
  | internalReview
  | legalReview
  | reviewed
  | published
  | watchers
  deriving DecidableEq, Repr

/-- A course-run row as read and written by the status-change machinery:
status, the `_old_status` tracker (models.py:2470), and the date/type fields
consumed by `handle_status_change`, `publish` and the sweep. -/
structure StatusRun where
  status : RunStatus
  oldStatus : RunStatus
  announcement : Option Nat
  goLiveDate : Option Nat
  endDate : Option Nat
  enrollmentEnd : Option Nat
  typeIsMarketable : Bool
  keyDeprecated : Bool
  draft : Bool
  slug : String
  deriving DecidableEq, Repr

/-- The state a draft run's save can touch in this model: the draft row, its
optional official pair, the course's id and `url_slug_history` rows (for the
publish redirect), and the notification log. -/
structure RunPairState where
  draftRun : StatusRun
  officialRun : Option StatusRun
  courseId : Nat
  slugTable : List (Nat × String)
  sent : List Notified
  deriving Repr

/-- Which row of the pair a save/publish is invoked on. -/
inductive RunSide
  | draftSide
  | officialSide
  deriving DecidableEq, Repr

/-- Fetch the row for a side (`none` when no official row exists yet). -/
def getRun (st : RunPairState) : RunSide → Option StatusRun
  | .draftSide => some st.draftRun
  | .officialSide => st.officialRun

/-- Store the row for a side. -/
def setRun (st : RunPairState) (side : RunSide) (r : StatusRun) :
    RunPairState :=
  match side with
  | .draftSide => { st with draftRun := r }
  | .officialSide => { st with officialRun := some r }

/-- View an official `StatusRun` as a sweep row, with its paired draft
status. -/
def toSweepRun (off : StatusRun) (draftStatus : Option RunStatus) :
    SweepRun :=
  { status := off.status
    endDate := off.endDate
    enrollmentEnd := off.enrollmentEnd
    typeIsMarketable := off.typeIsMarketable
    keyDeprecated := off.keyDeprecated
    draft := off.draft
    draftStatus := draftStatus }

/-- The `self.course.unpublish_inactive_runs()` call inside `publish`
(models.py:3021), on this model's single-run course: the official run, with
its paired draft status, passes through the sweep and the statuses are
written back. -/
def sweepAfterPublish (hasMarketingSite : Bool) (now : Nat)
    (st : RunPairState) : RunPairState :=
  match st.officialRun with
  | none => st
  | some off =>
    match (unpublish_inactive_runs hasMarketingSite now
        [toSweepRun off (some st.draftRun.status)]).2 with
    | [r] =>
      { st with
          officialRun := some { off with status := r.status }
          draftRun := { st.draftRun with
            status := r.draftStatus.getD st.draftRun.status } }
    | _ => st

/-- The redirect bookkeeping at the end of `publish` (models.py:3024): if a
`CourseUrlSlug` row with the run's slug exists and belongs to this course,
nothing happens; otherwise a row is created in the course's history. -/
def ensureRunSlugRedirect (courseId : Nat) (slug : String)
    (tbl : List (Nat × String)) : List (Nat × String) :=
  match tbl.find? (fun rec => rec.2 == slug) with
  | some rec => if rec.1 == courseId then tbl else tbl ++ [(courseId, slug)]
  | none => tbl ++ [(courseId, slug)]

/-- `CourseRun.update_or_create_official_version` (models.py:2878) restricted
to the run pair: the official row is created or overwritten as a field copy
of the draft row with `draft := False`; its `_old_status` tracker ends equal
to the copied status because its own save runs `handle_status_change` on a
non-draft row.  The child/course/slug cascade is modelled separately (see the
promotion model below); the ecommerce/LMS pushes are external. -/
def promoteDraftRow (st : RunPairState) : RunPairState :=
  let off : StatusRun :=
    { st.draftRun with draft := false, oldStatus := st.draftRun.status }
  { st with officialRun := some off }

mutual

/-- `CourseRun.save` (models.py:2959) reduced to this model's state: persist
the caller's row mutations (already in the state) and run
`handle_status_change`. -/
def runSave (fuel : Nat) (sendEmails hasMarketingSite : Bool) (now : Nat)
    (side : RunSide) (st : RunPairState) : RunPairState :=
  match fuel with
  | 0 => st
  | fuel + 1 =>
    handle_status_change fuel sendEmails hasMarketingSite now side st

/-- `CourseRun.handle_status_change` (models.py:2903). -/
def handle_status_change (fuel : Nat) (sendEmails hasMarketingSite : Bool)
    (now : Nat) (side : RunSide) (st : RunPairState) : RunPairState :=
  match fuel with
  | 0 => st
  | fuel + 1 =>
    match getRun st side with
    | none => st
    | some row =>
      if row.oldStatus == row.status then st
      else
        let row := { row with oldStatus := row.status }
        let st := setRun st side row
        if !row.draft then st
        else
          match row.status with
          | .LegalReview =>
            if sendEmails then { st with sent := st.sent ++ [.legalReview] }
            else st
          | .InternalReview =>
            if sendEmails then
              { st with sent := st.sent ++ [.internalReview] }
            else st
          | .Reviewed =>
            let st := promoteDraftRow st
            match row.goLiveDate with
            | some t =>
              if t ≤ now then
                publish fuel sendEmails hasMarketingSite now .officialSide st
              else
                if sendEmails then
                  { st with sent := st.sent ++ [.reviewed, .watchers] }
                else st
            | none =>
              if sendEmails then { st with sent := st.sent ++ [.reviewed] }
              else st
          | .Published =>
            if sendEmails then
              match row.goLiveDate with
              | some _ => { st with sent := st.sent ++ [.published, .watchers] }
              | none => { st with sent := st.sent ++ [.published] }
            else st
          | .Unpublished => st

/-- `CourseRun.publish` (models.py:2997): a draft row is not eligible; the
official row and its paired draft get `announcement := now`,
`status := Published` and are saved, then the course sweep runs and the
run-slug redirect row is ensured. -/
def publish (fuel : Nat) (sendEmails hasMarketingSite : Bool) (now : Nat)
    (side : RunSide) (st : RunPairState) : RunPairState :=
  match fuel with
  | 0 => st
  | fuel + 1 =>
    match getRun st side with
    | none => st
    | some self =>
      if self.draft then st
      else
        let st := setRun st side
          { self with announcement := some now, status := .Published }
        let st := runSave fuel sendEmails hasMarketingSite now side st
        let st :=
          match side with
          | .officialSide =>
            let dr := st.draftRun
            let st := { st with draftRun :=
              { dr with announcement := some now, status := .Published } }
            runSave fuel sendEmails hasMarketingSite now .draftSide st
          | .draftSide => st
        let st := sweepAfterPublish hasMarketingSite now st
        { st with slugTable :=
            ensureRunSlugRedirect st.courseId self.slug st.slugTable }

end

/-- On a single-run course the sweep never acts: the one published run is
either enrollment-ended (no marketable survivor) or not (no inactive run). -/
theorem unpublish_inactive_runs_singleton (hms : Bool) (now : Nat)
    (r : SweepRun) : (unpublish_inactive_runs hms now [r]).2 = [r] := by
  unfold unpublish_inactive_runs
  by_cases hm : hms = false
  · subst hm
    simp
  · replace hm : hms = true := by cases hms <;> simp_all
    subst hm
    by_cases hp : (r.status == RunStatus.Published) = true
    · by_cases he : has_enrollment_ended r now = true
      · have hmk : sweepMarketable now [r] = [] := by
          unfold sweepMarketable sweepPublished
          simp [hp, he]
        simp [hmk]
      · have hin : sweepInactive now [r] = [] := by
          unfold sweepInactive sweepPublished
          simp [hp, he]
        simp [hin]
    · have hin : sweepInactive now [r] = [] := by
        unfold sweepInactive sweepPublished
        simp [hp]
      simp [hin]

theorem sweepAfterPublish_noop (hms : Bool) (now : Nat)
    (st : RunPairState) : sweepAfterPublish hms now st = st := by
  obtain ⟨d, o, cid, tbl, sent⟩ := st
  cases o with
  | none => rfl
  | some off =>
    unfold sweepAfterPublish
    simp only [unpublish_inactive_runs_singleton, toSweepRun, Option.getD]

/-- C2: saving a draft run whose status changed to Reviewed runs the promoter
(an official pair exists afterwards).  If `go_live_date` is set and at or
before now, the run fast-forwards: both the official row and the paired
draft end `Published` with `announcement` stamped to now, exactly one
"published" notification fires and no "reviewed" one.  Otherwise both rows
stay `Reviewed` and exactly one "reviewed" notification fires, with no
"published" one. -/
theorem reviewed_transition_spec (st : RunPairState) (hms : Bool) (now : Nat)
    (hd : st.draftRun.draft = true)
    (hs : st.draftRun.status = .Reviewed)
    (hold : st.draftRun.oldStatus ≠ .Reviewed)
    (hsent : st.sent = []) :
    (runSave 6 true hms now .draftSide st).officialRun.isSome = true ∧
    (∀ t, st.draftRun.goLiveDate = some t → t ≤ now →
      ∃ off, (runSave 6 true hms now .draftSide st).officialRun = some off ∧
        off.status = .Published ∧ off.announcement = some now ∧
        (runSave 6 true hms now .draftSide st).draftRun.status = .Published ∧
        (runSave 6 true hms now .draftSide st).draftRun.announcement =
          some now ∧
        (runSave 6 true hms now .draftSide st).sent.count .published = 1 ∧
        (runSave 6 true hms now .draftSide st).sent.count .reviewed = 0) ∧
    ((∀ t, st.draftRun.goLiveDate = some t → ¬ t ≤ now) →
      (runSave 6 true hms now .draftSide st).draftRun.status = .Reviewed ∧
      (∃ off, (runSave 6 true hms now .draftSide st).officialRun = some off ∧
        off.status = .Reviewed) ∧
      (runSave 6 true hms now .draftSide st).sent.count .reviewed = 1 ∧
      (runSave 6 true hms now .draftSide st).sent.count .published = 0) := by
  obtain ⟨D, O, cid, stbl, ssent⟩ := st
  obtain ⟨status, old, ann, gld, ed, ee, tm, kd, df, slg⟩ := D
  simp only at hd hs hold hsent
  subst hs
  subst hd
  subst hsent
  have hbeq : (old == RunStatus.Reviewed) = false :=
    beq_eq_false_iff_ne.mpr hold
  cases gld with
  | none =>
    have hres : runSave 6 true hms now .draftSide
        ⟨⟨.Reviewed, old, ann, none, ed, ee, tm, kd, true, slg⟩, O, cid,
          stbl, []⟩ =
        ⟨⟨.Reviewed, .Reviewed, ann, none, ed, ee, tm, kd, true, slg⟩,
          some ⟨.Reviewed, .Reviewed, ann, none, ed, ee, tm, kd, false, slg⟩,
          cid, stbl, [.reviewed]⟩ := by
      have h1 : runSave 6 true hms now .draftSide
          ⟨⟨.Reviewed, old, ann, none, ed, ee, tm, kd, true, slg⟩, O, cid,
            stbl, []⟩ =
          (if (old == RunStatus.Reviewed) = true then
            (⟨⟨.Reviewed, old, ann, none, ed, ee, tm, kd, true, slg⟩, O, cid,
              stbl, []⟩ : RunPairState)
          else
            ⟨⟨.Reviewed, .Reviewed, ann, none, ed, ee, tm, kd, true, slg⟩,
              some ⟨.Reviewed, .Reviewed, ann, none, ed, ee, tm, kd, false,
                slg⟩, cid, stbl, [.reviewed]⟩) := rfl
      rw [h1, hbeq, if_neg Bool.false_ne_true]
    rw [hres]
    refine ⟨rfl, ?_, ?_⟩
    · intro t ht
      exact absurd ht (by simp)
    · intro _
      exact ⟨rfl, ⟨⟨.Reviewed, .Reviewed, ann, none, ed, ee, tm, kd, false,
        slg⟩, rfl, rfl⟩, rfl, rfl⟩
  | some t =>
    by_cases hle : t ≤ now
    · have hres : runSave 6 true hms now .draftSide
          ⟨⟨.Reviewed, old, ann, some t, ed, ee, tm, kd, true, slg⟩, O, cid,
            stbl, []⟩ =
          ⟨⟨.Published, .Published, some now, some t, ed, ee, tm, kd, true,
              slg⟩,
            some ⟨.Published, .Published, some now, some t, ed, ee, tm, kd,
              false, slg⟩,
            cid, ensureRunSlugRedirect cid slg stbl,
            [.published, .watchers]⟩ := by
        have h1 : runSave 6 true hms now .draftSide
            ⟨⟨.Reviewed, old, ann, some t, ed, ee, tm, kd, true, slg⟩, O,
              cid, stbl, []⟩ =
            (if (old == RunStatus.Reviewed) = true then
              (⟨⟨.Reviewed, old, ann, some t, ed, ee, tm, kd, true, slg⟩, O,
                cid, stbl, []⟩ : RunPairState)
            else if t ≤ now then
              publish 4 true hms now .officialSide
                ⟨⟨.Reviewed, .Reviewed, ann, some t, ed, ee, tm, kd, true,
                    slg⟩,
                  some ⟨.Reviewed, .Reviewed, ann, some t, ed, ee, tm, kd,
                    false, slg⟩, cid, stbl, []⟩
            else
              ⟨⟨.Reviewed, .Reviewed, ann, some t, ed, ee, tm, kd, true,
                  slg⟩,
                some ⟨.Reviewed, .Reviewed, ann, some t, ed, ee, tm, kd,
                  false, slg⟩, cid, stbl, [.reviewed, .watchers]⟩) := rfl
        rw [h1, hbeq, if_neg Bool.false_ne_true, if_pos hle]
        have h2 : publish 4 true hms now .officialSide
            ⟨⟨.Reviewed, .Reviewed, ann, some t, ed, ee, tm, kd, true, slg⟩,
              some ⟨.Reviewed, .Reviewed, ann, some t, ed, ee, tm, kd, false,
                slg⟩, cid, stbl, []⟩ =
            { sweepAfterPublish hms now
                ⟨⟨.Published, .Published, some now, some t, ed, ee, tm, kd,
                    true, slg⟩,
                  some ⟨.Published, .Published, some now, some t, ed, ee, tm,
                    kd, false, slg⟩, cid, stbl,
                  [.published, .watchers]⟩ with
              slugTable := ensureRunSlugRedirect
                (sweepAfterPublish hms now
                  ⟨⟨.Published, .Published, some now, some t, ed, ee, tm, kd,
                      true, slg⟩,
                    some ⟨.Published, .Published, some now, some t, ed, ee,
                      tm, kd, false, slg⟩, cid, stbl,
                    [.published, .watchers]⟩).courseId slg
                (sweepAfterPublish hms now
                  ⟨⟨.Published, .Published, some now, some t, ed, ee, tm, kd,
                      true, slg⟩,
                    some ⟨.Published, .Published, some now, some t, ed, ee,
                      tm, kd, false, slg⟩, cid, stbl,
                    [.published, .watchers]⟩).slugTable } := rfl
        rw [h2]
        simp only [sweepAfterPublish_noop]
      rw [hres]
      refine ⟨rfl, ?_, ?_⟩
      · intro t' ht' _
        exact ⟨⟨.Published, .Published, some now, some t, ed, ee, tm, kd,
          false, slg⟩, rfl, rfl, rfl, rfl, rfl, rfl, rfl⟩
      · intro hfut
        exact absurd hle (hfut t rfl)
    · have hres : runSave 6 true hms now .draftSide
          ⟨⟨.Reviewed, old, ann, some t, ed, ee, tm, kd, true, slg⟩, O, cid,
            stbl, []⟩ =
          ⟨⟨.Reviewed, .Reviewed, ann, some t, ed, ee, tm, kd, true, slg⟩,
            some ⟨.Reviewed, .Reviewed, ann, some t, ed, ee, tm, kd, false,
              slg⟩, cid, stbl, [.reviewed, .watchers]⟩ := by
        have h1 : runSave 6 true hms now .draftSide
            ⟨⟨.Reviewed, old, ann, some t, ed, ee, tm, kd, true, slg⟩, O,
              cid, stbl, []⟩ =
            (if (old == RunStatus.Reviewed) = true then
              (⟨⟨.Reviewed, old, ann, some t, ed, ee, tm, kd, true, slg⟩, O,
                cid, stbl, []⟩ : RunPairState)
            else if t ≤ now then
              publish 4 true hms now .officialSide
                ⟨⟨.Reviewed, .Reviewed, ann, some t, ed, ee, tm, kd, true,
                    slg⟩,
                  some ⟨.Reviewed, .Reviewed, ann, some t, ed, ee, tm, kd,
                    false, slg⟩, cid, stbl, []⟩
            else
              ⟨⟨.Reviewed, .Reviewed, ann, some t, ed, ee, tm, kd, true,
                  slg⟩,
                some ⟨.Reviewed, .Reviewed, ann, some t, ed, ee, tm, kd,
                  false, slg⟩, cid, stbl, [.reviewed, .watchers]⟩) := rfl
        rw [h1, hbeq, if_neg Bool.false_ne_true, if_neg hle]
      rw [hres]
      refine ⟨rfl, ?_, ?_⟩
      · intro t' ht' hle'
        exfalso
        have : t = t' := Option.some.inj ht'
        subst this
        exact hle hle'
      · intro _
        exact ⟨rfl, ⟨⟨.Reviewed, .Reviewed, ann, some t, ed, ee, tm, kd,
          false, slg⟩, rfl, rfl⟩, rfl, rfl⟩

/-- Witness for `reviewed_transition_spec`: scenario 1 of the spec — a draft
run with `go_live_date` in the past transitioned to Reviewed ends Published
with exactly one "published" notification. -/
theorem reviewed_transition_spec_witness :
    ∃ off, (runSave 6 true true 10 .draftSide
        ⟨⟨.Reviewed, .Unpublished, none, some 5, none, none, true, false,
            true, "run-x"⟩, none, 7, [], []⟩).officialRun = some off ∧
      off.status = .Published ∧ off.announcement = some 10 ∧
      (runSave 6 true true 10 .draftSide
        ⟨⟨.Reviewed, .Unpublished, none, some 5, none, none, true, false,
            true, "run-x"⟩, none, 7, [], []⟩).draftRun.status = .Published ∧
      (runSave 6 true true 10 .draftSide
        ⟨⟨.Reviewed, .Unpublished, none, some 5, none, none, true, false,
            true, "run-x"⟩, none, 7, [], []⟩).draftRun.announcement =
        some 10 ∧
      (runSave 6 true true 10 .draftSide
        ⟨⟨.Reviewed, .Unpublished, none, some 5, none, none, true, false,
            true, "run-x"⟩, none, 7, [], []⟩).sent.count .published = 1 ∧
      (runSave 6 true true 10 .draftSide
        ⟨⟨.Reviewed, .Unpublished, none, some 5, none, none, true, false,
            true, "run-x"⟩, none, 7, [], []⟩).sent.count .reviewed = 0 :=
  (reviewed_transition_spec
    ⟨⟨.Reviewed, .Unpublished, none, some 5, none, none, true, false, true,
        "run-x"⟩, none, 7, [], []⟩ true 10
    rfl rfl (by decide) rfl).2.1 5 rfl (by decide)

theorem listMap_id {α : Type} {f : α → α} {l : List α}
    (h : ∀ a ∈ l, f a = a) : l.map f = l := by
  induction l with
  | nil => rfl
  | cons a l ih =>
    rw [List.map_cons, h a (List.mem_cons_self a l),
      ih (fun b hb => h b (List.mem_cons_of_mem a hb))]

theorem replaceFirst_eq_self {p : UrlSlugRow → Bool}
    {f : UrlSlugRow → UrlSlugRow} {l : List UrlSlugRow}
    (h : ∀ r ∈ l, p r = true → f r = r) : replaceFirst p f l = l := by
  induction l with
  | nil => rfl
  | cons a l ih =>
    unfold replaceFirst
    by_cases ha : p a = true
    · rw [if_pos ha, h a (List.mem_cons_self a l) ha]
    · rw [if_neg ha, ih (fun b hb hpb => h b (List.mem_cons_of_mem a hb) hpb)]

theorem mem_setActiveUrlSlugOfficial_of_ne (c : CourseCtx) (slug : String)
    (tbl : List UrlSlugRow) :
    ∀ r ∈ setActiveUrlSlugOfficial c slug tbl, r.courseId ≠ c.id →
      r ∈ tbl ∧ (∀ d, c.counterpartId = some d → r.courseId = d →
        r.isActive = false) := by
  intro r hr hne
  unfold setActiveUrlSlugOfficial at hr
  obtain ⟨r2, hr2, hg⟩ := List.mem_map.mp hr
  have hr2id : r2.courseId = r.courseId := by
    unfold clearOtherFlags at hg
    by_cases hcond : (r2.courseId == c.id && (r2.isActive ||
        r2.isActiveOnDraft) && r2.urlSlug != slug) = true
    · rw [if_pos hcond] at hg
      rw [← hg]
    · rw [if_neg hcond] at hg
      rw [hg]
  have hr2ne : r2.courseId ≠ c.id := by
    rw [hr2id]
    exact hne
  have hg2 : r = r2 := by
    unfold clearOtherFlags at hg
    by_cases hcond : (r2.courseId == c.id && (r2.isActive ||
        r2.isActiveOnDraft) && r2.urlSlug != slug) = true
    · exfalso
      exact hr2ne (beq_iff_eq.mp ((Bool.and_eq_true _ _).mp
        ((Bool.and_eq_true _ _).mp hcond).1).1)
    · rw [if_neg hcond] at hg
      exact hg.symm
  subst hg2
  unfold officialUpsert at hr2
  have hr3 : r ∈ officialDeleteDraftActive c tbl := by
    by_cases hany : ((officialDeleteDraftActive c tbl).any
        (fun s => s.courseId == c.id && s.urlSlug == slug)) = true
    · rw [if_pos hany] at hr2
      rcases mem_replaceFirst hr2 with hmem | ⟨r0, _, hp0, he⟩
      · exact hmem
      · exfalso
        apply hr2ne
        rw [he]
        exact beq_iff_eq.mp ((Bool.and_eq_true _ _).mp hp0).1
    · rw [if_neg hany] at hr2
      rcases List.mem_append.mp hr2 with hmem | hmem
      · exact hmem
      · exfalso
        rw [List.mem_singleton] at hmem
        apply hr2ne
        rw [hmem]
  unfold officialDeleteDraftActive at hr3
  cases hcp : c.counterpartId with
  | none =>
    rw [hcp] at hr3
    exact ⟨hr3, fun d hd => absurd hd (by simp)⟩
  | some d =>
    rw [hcp] at hr3
    rcases List.mem_filter.mp hr3 with ⟨hmem, hpred⟩
    refine ⟨hmem, ?_⟩
    intro d' hd' hrd
    have hdd : d' = d := (Option.some.inj hd').symm
    by_cases hact : r.isActive = true
    · exfalso
      have hcontra : (r.courseId == d && r.isActive) = true := by
        rw [Bool.and_eq_true]
        exact ⟨beq_iff_eq.mpr (hrd.trans hdd), hact⟩
      rw [hcontra] at hpred
      simp at hpred
    · exact Bool.eq_false_iff.mpr hact

theorem replaceFirst_flags (c : CourseCtx) (slug : String)
    (l : List UrlSlugRow) (huniq : slugTextsUnique l) :
    ∀ r ∈ replaceFirst (fun r => r.courseId == c.id && r.urlSlug == slug)
        (officialUpsertRow slug) l,
      r.courseId = c.id → r.urlSlug = slug →
        r.isActive = true ∧ r.isActiveOnDraft = true := by
  induction l with
  | nil => intro r hr; exact absurd hr (List.not_mem_nil r)
  | cons a l ih =>
    intro r hr hid htext
    rcases List.pairwise_cons.mp huniq with ⟨ha, hl⟩
    unfold replaceFirst at hr
    by_cases hpa : (a.courseId == c.id && a.urlSlug == slug) = true
    · rw [if_pos hpa] at hr
      rcases List.mem_cons.mp hr with rfl | hmem
      · exact ⟨rfl, rfl⟩
      · exfalso
        have hatext : a.urlSlug = slug :=
          beq_iff_eq.mp ((Bool.and_eq_true _ _).mp hpa).2
        exact ha r hmem (hatext.trans htext.symm)
    · rw [if_neg hpa] at hr
      rcases List.mem_cons.mp hr with rfl | hmem
      · exfalso
        apply hpa
        rw [Bool.and_eq_true]
        exact ⟨beq_iff_eq.mpr hid, beq_iff_eq.mpr htext⟩
      · exact ih hl r hmem hid htext

theorem setActiveUrlSlugOfficial_slugrow_flags (c : CourseCtx)
    (slug : String) (tbl : List UrlSlugRow) (huniq : slugTextsUnique tbl) :
    ∀ r ∈ setActiveUrlSlugOfficial c slug tbl, r.courseId = c.id →
      r.urlSlug = slug → r.isActive = true ∧ r.isActiveOnDraft = true := by
  intro r hr hid htext
  have huniq1 : slugTextsUnique (officialDeleteDraftActive c tbl) :=
    slugTextsUnique_sublist (officialDeleteDraftActive_sublist c tbl) huniq
  unfold setActiveUrlSlugOfficial at hr
  obtain ⟨r2, hr2, hg⟩ := List.mem_map.mp hr
  have hg2 : r = r2 := by
    unfold clearOtherFlags at hg
    by_cases hcond : (r2.courseId == c.id && (r2.isActive ||
        r2.isActiveOnDraft) && r2.urlSlug != slug) = true
    · exfalso
      have htne : r2.urlSlug ≠ slug :=
        bne_iff_ne.mp ((Bool.and_eq_true _ _).mp hcond).2
      rw [if_pos hcond] at hg
      apply htne
      rw [show r2.urlSlug = r.urlSlug from by rw [← hg]]
      exact htext
    · rw [if_neg hcond] at hg
      exact hg.symm
  subst hg2
  unfold officialUpsert at hr2
  by_cases hany : ((officialDeleteDraftActive c tbl).any
      (fun s => s.courseId == c.id && s.urlSlug == slug)) = true
  · rw [if_pos hany] at hr2
    exact replaceFirst_flags c slug _ huniq1 r hr2 hid htext
  · rw [if_neg hany] at hr2
    rcases List.mem_append.mp hr2 with hmem | hmem
    · exfalso
      apply hany
      apply List.any_eq_true.mpr
      refine ⟨r, hmem, ?_⟩
      rw [Bool.and_eq_true]
      exact ⟨beq_iff_eq.mpr hid, beq_iff_eq.mpr htext⟩
    · rw [List.mem_singleton] at hmem
      rw [hmem]
      exact ⟨rfl, rfl⟩

/-- After a successful official-side activation, the draft counterpart
resolves to the just-activated slug, and repeating the same activation on the
result is accepted and leaves the table exactly as it is.  This is the slug
half of promotion idempotence. -/
theorem official_reactivate_noop (c : CourseCtx) (d : Nat) (slug : String)
    (tbl tbl' : List UrlSlugRow)
    (hcd : c.draft = false) (hcp : c.counterpartId = some d)
    (hdc : d ≠ c.id) (hslug : slug ≠ "")
    (huniq : slugTextsUnique tbl)
    (hall : ∀ r ∈ tbl, r.courseId = d → r.isActive = true)
    (hok : set_active_url_slug c slug tbl = .ok tbl') :
    active_url_slug ⟨d, true, some c.id⟩ tbl' = some slug ∧
    set_active_url_slug c slug tbl' = .ok tbl' := by
  have hbne : (slug != "") = true := bne_iff_ne.mpr hslug
  by_cases hguardT : (slug != "" && slugInUseElsewhere c slug tbl) = true
  · unfold set_active_url_slug at hok
    rw [if_pos hguardT] at hok
    exact absurd hok (by simp)
  · have hInUse : slugInUseElsewhere c slug tbl = false := by
      have h1 : (slug != "" && slugInUseElsewhere c slug tbl) = false :=
        Bool.eq_false_iff.mpr hguardT
      cases hcase : slugInUseElsewhere c slug tbl with
      | false => rfl
      | true =>
        rw [hbne, hcase] at h1
        simp at h1
    have htbl' : tbl' = setActiveUrlSlugOfficial c slug tbl := by
      unfold set_active_url_slug at hok
      rw [if_neg hguardT, hcd] at hok
      simp at hok
      exact hok.symm
    subst htbl'
    have hNoD : ∀ r ∈ setActiveUrlSlugOfficial c slug tbl,
        r.courseId ≠ d := by
      intro r hr hrd
      have hne : r.courseId ≠ c.id := by
        rw [hrd]
        exact hdc
      obtain ⟨hmem, hinact⟩ :=
        mem_setActiveUrlSlugOfficial_of_ne c slug tbl r hr hne
      have hfalse := hinact d hcp hrd
      rw [hall r hmem hrd] at hfalse
      exact absurd hfalse (by simp)
    have hExists := setActiveUrlSlugOfficial_exists_active c slug tbl
    have hCleared := setActiveUrlSlugOfficial_cleared c slug tbl
    have hFlags := setActiveUrlSlugOfficial_slugrow_flags c slug tbl huniq
    constructor
    · -- draft resolution on the new table yields the activated slug
      have hown : (setActiveUrlSlugOfficial c slug tbl).find?
          (fun r => r.courseId == d && r.isActive) = none := by
        rw [List.find?_eq_none]
        intro r hr hpred
        exact hNoD r hr
          (beq_iff_eq.mp ((Bool.and_eq_true _ _).mp hpred).1)
      have haodsome : ((setActiveUrlSlugOfficial c slug tbl).find?
          (fun r => r.courseId == c.id && r.isActiveOnDraft)).isSome =
          true := by
        obtain ⟨r, hr, h1, h2, _, h4⟩ := hExists
        apply List.find?_isSome.mpr
        refine ⟨r, hr, ?_⟩
        rw [Bool.and_eq_true]
        exact ⟨beq_iff_eq.mpr h1, h4⟩
      obtain ⟨r0, hr0⟩ := Option.isSome_iff_exists.mp haodsome
      have hr0mem := List.mem_of_find?_eq_some hr0
      have hr0p := List.find?_some hr0
      rw [Bool.and_eq_true] at hr0p
      have hr0id : r0.courseId = c.id := beq_iff_eq.mp hr0p.1
      have hr0text : r0.urlSlug = slug := by
        by_contra hne
        have hcl := (hCleared r0 hr0mem hr0id hne).2
        rw [hcl] at hr0p
        exact absurd hr0p.2 (by simp)
      unfold active_url_slug
      simp [hown, hr0, hr0text]
    · -- repeating the activation is accepted and is the identity
      have hInUse2 : slugInUseElsewhere c slug
          (setActiveUrlSlugOfficial c slug tbl) = false := by
        cases hcase : slugInUseElsewhere c slug
            (setActiveUrlSlugOfficial c slug tbl) with
        | false => rfl
        | true =>
          exfalso
          obtain ⟨r, hr, hpred⟩ := List.any_eq_true.mp hcase
          rw [Bool.and_eq_true, Bool.and_eq_true] at hpred
          obtain ⟨⟨h1, h2⟩, h3⟩ := hpred
          have hne : r.courseId ≠ c.id := bne_iff_ne.mp h2
          obtain ⟨hmem, _⟩ :=
            mem_setActiveUrlSlugOfficial_of_ne c slug tbl r hr hne
          have hcontra : slugInUseElsewhere c slug tbl = true := by
            apply List.any_eq_true.mpr
            refine ⟨r, hmem, ?_⟩
            rw [Bool.and_eq_true, Bool.and_eq_true]
            exact ⟨⟨h1, h2⟩, h3⟩
          rw [hcontra] at hInUse
          exact absurd hInUse (by simp)
      have hdel : officialDeleteDraftActive c
          (setActiveUrlSlugOfficial c slug tbl) =
          setActiveUrlSlugOfficial c slug tbl := by
        unfold officialDeleteDraftActive
        rw [hcp]
        apply List.filter_eq_self.mpr
        intro r hr
        have hne := hNoD r hr
        rw [beq_eq_false_iff_ne.mpr hne, Bool.false_and, Bool.not_false]
      have hanymatch : ((setActiveUrlSlugOfficial c slug tbl).any
          (fun r => r.courseId == c.id && r.urlSlug == slug)) = true := by
        obtain ⟨r, hr, h1, h2, _, _⟩ := hExists
        apply List.any_eq_true.mpr
        refine ⟨r, hr, ?_⟩
        rw [Bool.and_eq_true]
        exact ⟨beq_iff_eq.mpr h1, beq_iff_eq.mpr h2⟩
      have hupsert : officialUpsert c slug
          (setActiveUrlSlugOfficial c slug tbl) =
          setActiveUrlSlugOfficial c slug tbl := by
        unfold officialUpsert
        rw [if_pos hanymatch]
        apply replaceFirst_eq_self
        intro r hr hp
        rw [Bool.and_eq_true] at hp
        have hid := beq_iff_eq.mp hp.1
        have htext := beq_iff_eq.mp hp.2
        have hfl := hFlags r hr hid htext
        obtain ⟨cid0, t0, a0, ad0⟩ := r
        unfold officialUpsertRow
        simp only at htext hfl
        rw [htext, hfl.1, hfl.2]
      have hclear : (setActiveUrlSlugOfficial c slug tbl).map
          (clearOtherFlags c slug) = setActiveUrlSlugOfficial c slug tbl := by
        apply listMap_id
        intro r hr
        have hcond : (r.courseId == c.id && (r.isActive ||
            r.isActiveOnDraft) && r.urlSlug != slug) = false := by
          by_cases h1 : (r.courseId == c.id) = true
          · by_cases h3 : (r.urlSlug != slug) = true
            · have hcl := hCleared r hr (beq_iff_eq.mp h1)
                (bne_iff_ne.mp h3)
              rw [hcl.1, hcl.2]
              simp
            · rw [Bool.eq_false_iff.mpr h3, Bool.and_false]
          · rw [Bool.eq_false_iff.mpr h1, Bool.false_and, Bool.false_and]
        unfold clearOtherFlags
        rw [hcond, if_neg Bool.false_ne_true]
      have hBranch : setActiveUrlSlugOfficial c slug
          (setActiveUrlSlugOfficial c slug tbl) =
          setActiveUrlSlugOfficial c slug tbl := by
        show (officialUpsert c slug (officialDeleteDraftActive c
            (setActiveUrlSlugOfficial c slug tbl))).map
          (clearOtherFlags c slug) = _
        rw [hdel, hupsert, hclear]
      unfold set_active_url_slug
      rw [hInUse2, Bool.and_false, if_neg Bool.false_ne_true, hcd]
      simp only [Bool.false_eq_true, if_false]
      rw [hBranch]

/-! ## Promotion model: `CourseRun.update_or_create_official_version` and
`Course._update_or_create_official_version`

The copy helper `utils.set_official_state` is imported at models.py:66 but
its body is not part of src/; it is modelled from the spec (§4.1): create the
official counterpart copying every scalar field from the draft, or overwrite
the existing counterpart's fields in place, preserving its identity.
Following §9, the draft/official pairing is represented as the
logical-identity record: each logical child entity is a pair of its draft
value and its optional official value; scalar field bundles are opaque
numbers because the copy is wholesale and reflective.  The state follows one
draft course run, its course, their children, and the shared slug table.  -/

/-- A draft (or official) Seat reduced to what promotion copies. -/
structure SeatVal where
  type : String
  fields : Nat
  deriving DecidableEq, Repr

/-- A draft (or official) CourseEntitlement reduced to what promotion
copies. -/
structure EntitlementVal where
  mode : String
  fields : Nat
  deriving DecidableEq, Repr

/-- A draft (or official) RestrictedCourseRun reduced to what promotion
copies. -/
structure RestrictionVal where
  restrictionType : String
  deriving DecidableEq, Repr

/-- The catalog state around one draft course run: the draft course and run
(with their official counterparts when they exist), child entities as
draft/official logical pairs, and the slug registry table. -/
structure CatalogState where
  draftCourseId : Nat
  officialCourseId : Nat
  draftCourse : Nat
  officialCourse : Option Nat
  draftCourseCanonical : Option Nat
  officialCourseCanonical : Option Nat
  draftRunId : Nat
  draftRun : Nat
  draftRunSlug : String
  officialRunId : Option Nat
  officialRun : Option Nat
  officialRunSlug : Option String
  seats : List (SeatVal × Option SeatVal)
  entitlements : List (EntitlementVal × Option EntitlementVal)
  restriction : Option (RestrictionVal × Option RestrictionVal)
  slugs : List UrlSlugRow
  nextId : Nat
  deriving Repr

/-- Modelled from the spec: `set_official_state` on the course run — copy the
draft's fields onto the official counterpart; a fresh official row gets a new
primary key.  Returns the official run's id. -/
def runSetOfficialState (st : CatalogState) : CatalogState × Nat :=
  match st.officialRunId with
  | some i => ({ st with officialRun := some st.draftRun }, i)
  | none =>
    ({ st with
        officialRun := some st.draftRun
        officialRunId := some st.nextId
        nextId := st.nextId + 1 }, st.nextId)

/-- Modelled from the spec: `set_official_state` on the course — copy the
draft's scalar fields onto the official counterpart (creating it if absent);
`canonical_course_run` is not part of the copy since §4.1 sets it on first
promotion only, in the caller. -/
def courseSetOfficialState (st : CatalogState) : CatalogState :=
  { st with officialCourse := some st.draftCourse }

/-- Modelled from the spec: `set_official_state` on a Seat attached to the
official run. -/
def seatSetOfficialState (p : SeatVal × Option SeatVal) :
    SeatVal × Option SeatVal :=
  (p.1, some p.1)

/-- Modelled from the spec: `set_official_state` on a CourseEntitlement
attached to the official course. -/
def entitlementSetOfficialState
    (p : EntitlementVal × Option EntitlementVal) :
    EntitlementVal × Option EntitlementVal :=
  (p.1, some p.1)

/-- Modelled from the spec: `set_official_state` on a RestrictedCourseRun
attached to the official run. -/
def restrictionSetOfficialState
    (p : RestrictionVal × Option RestrictionVal) :
    RestrictionVal × Option RestrictionVal :=
  (p.1, some p.1)

/-- The entitlement step of the course promotion loop (models.py:1961): only
draft entitlements with an entitlement-eligible mode get an official
counterpart. -/
def promoteEligibleEntitlement
    (p : EntitlementVal × Option EntitlementVal) :
    EntitlementVal × Option EntitlementVal :=
  if ENTITLEMENT_MODES.contains p.1.mode then entitlementSetOfficialState p
  else p

/-- `Course._update_or_create_official_version` (models.py:1948): compute
`creating` before the copy, copy the course, promote every draft entitlement
whose mode is entitlement-eligible, reconcile the official active slug from
the draft course's resolved slug, and on first promotion set the official
course's canonical run to the (official) promoted run and the draft course's
canonical run to the draft run. -/
def course_update_or_create_official_version (st : CatalogState)
    (officialRunId : Nat) : Except Unit CatalogState :=
  let creating := st.officialCourse.isNone
  let st := courseSetOfficialState st
  let st := { st with
    entitlements := st.entitlements.map promoteEligibleEntitlement }
  let draftCtx : CourseCtx :=
    ⟨st.draftCourseId, true, some st.officialCourseId⟩
  let offCtx : CourseCtx :=
    ⟨st.officialCourseId, false, some st.draftCourseId⟩
  match set_active_url_slug offCtx
      ((active_url_slug draftCtx st.slugs).getD "") st.slugs with
  | .error _ => .error ()
  | .ok slugs2 =>
    let st := { st with slugs := slugs2 }
    if creating then
      .ok { st with
              officialCourseCanonical := some officialRunId
              draftCourseCanonical := some st.draftRunId }
    else .ok st

/-- `CourseRun.update_or_create_official_version` (models.py:2878): promote
the run row, cascade to every current-draft seat and to the restriction row
if present, promote the course (with its entitlement cascade and slug
reconciliation), then set the official run's slug from the draft's and attach
it to the official course (the attachment is structural here).  The
ecommerce/LMS pushes are external collaborators. -/
def update_or_create_official_version (st : CatalogState) :
    Except Unit CatalogState :=
  let pair := runSetOfficialState st
  let st1 := pair.1
  let st2 := { st1 with seats := st1.seats.map seatSetOfficialState }
  let st3 := { st2 with
    restriction := st2.restriction.map restrictionSetOfficialState }
  match course_update_or_create_official_version st3 pair.2 with
  | .error _ => .error ()
  | .ok st4 => .ok { st4 with officialRunSlug := some st4.draftRunSlug }

/-- A concrete draft-only catalog state used to exercise the promotion
path: one verified seat, a verified and an audit entitlement, a restriction
record and an active draft slug, with no official counterpart yet. -/
def promoSt : CatalogState :=
  { draftCourseId := 0, officialCourseId := 1, draftCourse := 100,
    officialCourse := none, draftCourseCanonical := none,
    officialCourseCanonical := none, draftRunId := 10, draftRun := 200,
    draftRunSlug := "course-v1:x+y+z", officialRunId := none,
    officialRun := none, officialRunSlug := none,
    seats := [(⟨"verified", 3⟩, none)],
    entitlements := [(⟨"verified", 5⟩, none), (⟨"audit", 6⟩, none)],
    restriction := some (⟨"custom-b2b"⟩, none),
    slugs := [⟨0, "my-course", true, false⟩], nextId := 20 }

/-- The catalog state produced by promoting `promoSt` once: the official
run, course, seat, eligible entitlement and restriction exist, the audit
entitlement is untouched, canonical runs are stamped and the slug moved to
the official course with both flags set. -/
def promoSt2 : CatalogState :=
  { draftCourseId := 0, officialCourseId := 1, draftCourse := 100,
    officialCourse := some 100, draftCourseCanonical := some 10,
    officialCourseCanonical := some 20, draftRunId := 10, draftRun := 200,
    draftRunSlug := "course-v1:x+y+z", officialRunId := some 20,
    officialRun := some 200, officialRunSlug := some "course-v1:x+y+z",
    seats := [(⟨"verified", 3⟩, some ⟨"verified", 3⟩)],
    entitlements := [(⟨"verified", 5⟩, some ⟨"verified", 5⟩),
      (⟨"audit", 6⟩, none)],
    restriction := some (⟨"custom-b2b"⟩, some ⟨"custom-b2b"⟩),
    slugs := [⟨1, "my-course", true, true⟩], nextId := 21 }

theorem runSetOfficialState_frame (st : CatalogState) :
    (runSetOfficialState st).1.seats = st.seats ∧
    (runSetOfficialState st).1.entitlements = st.entitlements ∧
    (runSetOfficialState st).1.restriction = st.restriction ∧
    (runSetOfficialState st).1.slugs = st.slugs ∧
    (runSetOfficialState st).1.draftCourseId = st.draftCourseId ∧
    (runSetOfficialState st).1.officialCourseId = st.officialCourseId ∧
    (runSetOfficialState st).1.draftRun = st.draftRun ∧
    (runSetOfficialState st).1.draftRunId = st.draftRunId ∧
    (runSetOfficialState st).1.draftRunSlug = st.draftRunSlug ∧
    (runSetOfficialState st).1.draftCourse = st.draftCourse ∧
    (runSetOfficialState st).1.officialCourse = st.officialCourse ∧
    (runSetOfficialState st).1.draftCourseCanonical =
      st.draftCourseCanonical ∧
    (runSetOfficialState st).1.officialCourseCanonical =
      st.officialCourseCanonical ∧
    (runSetOfficialState st).1.officialRun = some st.draftRun ∧
    (runSetOfficialState st).1.officialRunId =
      some (runSetOfficialState st).2 := by
  unfold runSetOfficialState
  cases st.officialRunId <;>
    exact ⟨rfl, rfl, rfl, rfl, rfl, rfl, rfl, rfl, rfl, rfl, rfl, rfl, rfl,
      rfl, rfl⟩

theorem course_promo_spec (st : CatalogState) (rid : Nat)
    (st4 : CatalogState)
    (hok : course_update_or_create_official_version st rid = .ok st4) :
    st4.seats = st.seats ∧
    st4.entitlements = st.entitlements.map promoteEligibleEntitlement ∧
    st4.restriction = st.restriction ∧
    st4.officialCourse = some st.draftCourse ∧
    st4.draftCourse = st.draftCourse ∧
    st4.draftRunSlug = st.draftRunSlug ∧
    st4.officialRun = st.officialRun ∧
    st4.officialRunId = st.officialRunId ∧
    st4.draftRunId = st.draftRunId ∧
    st4.draftRun = st.draftRun ∧
    st4.draftCourseId = st.draftCourseId ∧
    st4.officialCourseId = st.officialCourseId ∧
    st4.officialRunSlug = st.officialRunSlug ∧
    (st.officialCourse = none →
      st4.officialCourseCanonical = some rid ∧
      st4.draftCourseCanonical = some st.draftRunId) ∧
    (st.officialCourse.isSome = true →
      st4.officialCourseCanonical = st.officialCourseCanonical ∧
      st4.draftCourseCanonical = st.draftCourseCanonical) ∧
    set_active_url_slug ⟨st.officialCourseId, false, some st.draftCourseId⟩
      ((active_url_slug ⟨st.draftCourseId, true, some st.officialCourseId⟩
        st.slugs).getD "") st.slugs = .ok st4.slugs := by
  unfold course_update_or_create_official_version courseSetOfficialState
    at hok
  dsimp only at hok
  cases hs : set_active_url_slug
      ⟨st.officialCourseId, false, some st.draftCourseId⟩
      ((active_url_slug ⟨st.draftCourseId, true, some st.officialCourseId⟩
        st.slugs).getD "") st.slugs with
  | error e =>
    rw [hs] at hok
    exact absurd hok (by simp)
  | ok slugs2 =>
    rw [hs] at hok
    cases hoc : st.officialCourse with
    | none =>
      rw [hoc] at hok
      simp only [Option.isNone_none, if_pos] at hok
      have hst4 := (Except.ok.inj hok).symm
      subst hst4
      refine ⟨rfl, rfl, rfl, rfl, rfl, rfl, rfl, rfl, rfl, rfl, rfl, rfl,
        rfl, ?_, ?_, ?_⟩
      · intro _
        exact ⟨rfl, rfl⟩
      · intro hcontra
        exact absurd hcontra (by simp)
      · rfl
    | some oc =>
      rw [hoc] at hok
      simp only [Option.isNone_some, Bool.false_eq_true, if_false] at hok
      have hst4 := (Except.ok.inj hok).symm
      subst hst4
      refine ⟨rfl, rfl, rfl, rfl, rfl, rfl, rfl, rfl, rfl, rfl, rfl, rfl,
        rfl, ?_, ?_, ?_⟩
      · intro hcontra
        exact absurd hcontra (by simp)
      · intro _
        exact ⟨rfl, rfl⟩
      · rfl

/-- C8: promotion cascade.  Promoting a draft course run gives every
current-draft Seat of the run a created-or-updated official counterpart
(attached to the official run), gives every current-draft CourseEntitlement
of its course whose mode is entitlement-eligible an official counterpart
(attached to the official course), and promotes the run's restriction record
when present; a draft entitlement with a non-eligible mode is left untouched,
producing no official counterpart in this promotion, and an absent
restriction stays absent. -/
theorem promotion_cascade (st st' : CatalogState)
    (hok : update_or_create_official_version st = .ok st') :
    st'.seats.length = st.seats.length ∧
    (∀ i (h : i < st.seats.length) (h2 : i < st'.seats.length),
      st'.seats.get ⟨i, h2⟩ =
        ((st.seats.get ⟨i, h⟩).1, some (st.seats.get ⟨i, h⟩).1)) ∧
    st'.entitlements.length = st.entitlements.length ∧
    (∀ i (h : i < st.entitlements.length)
        (h2 : i < st'.entitlements.length),
      (ENTITLEMENT_MODES.contains (st.entitlements.get ⟨i, h⟩).1.mode
          = true →
        st'.entitlements.get ⟨i, h2⟩ =
          ((st.entitlements.get ⟨i, h⟩).1,
            some (st.entitlements.get ⟨i, h⟩).1)) ∧
      (ENTITLEMENT_MODES.contains (st.entitlements.get ⟨i, h⟩).1.mode
          = false →
        st'.entitlements.get ⟨i, h2⟩ = st.entitlements.get ⟨i, h⟩)) ∧
    st'.restriction = st.restriction.map restrictionSetOfficialState := by
  have hframe := runSetOfficialState_frame st
  unfold update_or_create_official_version at hok
  dsimp only at hok
  split at hok
  · exact absurd hok (by simp)
  · rename_i st4 heq
    have hst' : st' = { st4 with officialRunSlug := some st4.draftRunSlug } :=
      (Except.ok.inj hok).symm
    subst hst'
    have hspec := course_promo_spec _ _ _ heq
    dsimp only at hspec
    have hseats : st4.seats = st.seats.map seatSetOfficialState := by
      rw [hspec.1, hframe.1]
    have hents : st4.entitlements =
        st.entitlements.map promoteEligibleEntitlement := by
      rw [hspec.2.1, hframe.2.1]
    have hrestr : st4.restriction =
        st.restriction.map restrictionSetOfficialState := by
      rw [hspec.2.2.1, hframe.2.2.1]
    refine ⟨?_, ?_, ?_, ?_, ?_⟩
    · show st4.seats.length = st.seats.length
      rw [hseats, List.length_map]
    · intro i h h2
      show st4.seats.get ⟨i, h2⟩ = _
      have h2' : i < (st.seats.map seatSetOfficialState).length := by
        rw [← hseats]
        exact h2
      have hcast : st4.seats.get ⟨i, h2⟩ =
          (st.seats.map seatSetOfficialState).get ⟨i, h2'⟩ :=
        List.get_of_eq hseats ⟨i, h2⟩
      rw [hcast, List.get_map]
      rfl
    · show st4.entitlements.length = st.entitlements.length
      rw [hents, List.length_map]
    · intro i h h2
      have h2' : i < (st.entitlements.map promoteEligibleEntitlement).length
          := by
        rw [← hents]
        exact h2
      have hgm : st4.entitlements.get ⟨i, h2⟩ =
          (st.entitlements.map promoteEligibleEntitlement).get ⟨i, h2'⟩ :=
        List.get_of_eq hents ⟨i, h2⟩
      constructor
      · intro hel
        show st4.entitlements.get ⟨i, h2⟩ = _
        rw [hgm, List.get_map]
        unfold promoteEligibleEntitlement entitlementSetOfficialState
        rw [if_pos hel]
      · intro hel
        show st4.entitlements.get ⟨i, h2⟩ = _
        rw [hgm, List.get_map]
        unfold promoteEligibleEntitlement
        rw [hel, if_neg Bool.false_ne_true]
    · exact hrestr

/-- Witness for `promotion_cascade`: on the concrete state `promoSt`
the promotion cascades — the seat and the eligible verified entitlement are
promoted, the non-eligible audit entitlement is left unpromoted, and the
restriction record is promoted. -/
theorem promotion_cascade_witness :
    promoSt2.seats.length = promoSt.seats.length ∧
    promoSt2.restriction =
      promoSt.restriction.map restrictionSetOfficialState :=
  have h := promotion_cascade promoSt promoSt2 rfl
  ⟨h.1, h.2.2.2.2⟩

/-- C9: the canonical course run is set on first promotion only.  When the
draft course has no official counterpart yet, the freshly created official
course's `canonical_course_run` becomes the new official run and the draft
course's becomes the draft run; when the official course already exists both
canonical fields are left unchanged. -/
theorem canonical_first_promotion (st st' : CatalogState)
    (hok : update_or_create_official_version st = .ok st') :
    (st.officialCourse = none →
      ∃ i, st'.officialRunId = some i ∧
        st'.officialCourseCanonical = some i ∧
        st'.draftCourseCanonical = some st.draftRunId) ∧
    (st.officialCourse.isSome = true →
      st'.officialCourseCanonical = st.officialCourseCanonical ∧
      st'.draftCourseCanonical = st.draftCourseCanonical) := by
  have hframe := runSetOfficialState_frame st
  unfold update_or_create_official_version at hok
  dsimp only at hok
  split at hok
  · exact absurd hok (by simp)
  · rename_i st4 heq
    have hst' : st' = { st4 with officialRunSlug := some st4.draftRunSlug } :=
      (Except.ok.inj hok).symm
    subst hst'
    have hspec := course_promo_spec _ _ _ heq
    dsimp only at hspec
    constructor
    · intro hnone
      have hcreate := hspec.2.2.2.2.2.2.2.2.2.2.2.2.2.1 (by
        rw [hframe.2.2.2.2.2.2.2.2.2.2.1]
        exact hnone)
      refine ⟨(runSetOfficialState st).2, ?_, ?_, ?_⟩
      · show st4.officialRunId = _
        rw [hspec.2.2.2.2.2.2.2.1]
        exact hframe.2.2.2.2.2.2.2.2.2.2.2.2.2.2
      · show st4.officialCourseCanonical = _
        exact hcreate.1
      · show st4.draftCourseCanonical = _
        rw [hcreate.2]
        rw [hframe.2.2.2.2.2.2.2.1]
    · intro hsome
      have hkeep := hspec.2.2.2.2.2.2.2.2.2.2.2.2.2.2.1 (by
        rw [hframe.2.2.2.2.2.2.2.2.2.2.1]
        exact hsome)
      constructor
      · show st4.officialCourseCanonical = _
        rw [hkeep.1]
        exact hframe.2.2.2.2.2.2.2.2.2.2.2.2.1
      · show st4.draftCourseCanonical = _
        rw [hkeep.2]
        exact hframe.2.2.2.2.2.2.2.2.2.2.2.1

/-- Witness for `canonical_first_promotion`: first promotion of the
concrete state `promoSt` (no official course yet) sets both canonical
course runs. -/
theorem canonical_first_promotion_witness :
    ∃ i, promoSt2.officialRunId = some i ∧
      promoSt2.officialCourseCanonical = some i ∧
      promoSt2.draftCourseCanonical = some promoSt.draftRunId :=
  (canonical_first_promotion promoSt promoSt2 rfl).1 rfl

theorem course_promo_noop (σ : CatalogState) (rid : Nat)
    (h5 : σ.officialCourse = some σ.draftCourse)
    (h6 : σ.entitlements.map promoteEligibleEntitlement = σ.entitlements)
    (h7 : set_active_url_slug
        ⟨σ.officialCourseId, false, some σ.draftCourseId⟩
        ((active_url_slug ⟨σ.draftCourseId, true, some σ.officialCourseId⟩
          σ.slugs).getD "") σ.slugs = .ok σ.slugs) :
    course_update_or_create_official_version σ rid = .ok σ := by
  unfold course_update_or_create_official_version courseSetOfficialState
  dsimp only
  rw [h6, h7]
  dsimp only
  rw [h5]
  simp only [Option.isNone_some, Bool.false_eq_true, if_false]
  rw [← h5]

theorem seats_map_idem (l : List (SeatVal × Option SeatVal)) :
    (l.map seatSetOfficialState).map seatSetOfficialState =
      l.map seatSetOfficialState := by
  induction l with
  | nil => rfl
  | cons a t ih =>
    simp only [List.map_cons]
    rw [ih]
    rfl

theorem promoteEligibleEntitlement_idem
    (p : EntitlementVal × Option EntitlementVal) :
    promoteEligibleEntitlement (promoteEligibleEntitlement p) =
      promoteEligibleEntitlement p := by
  by_cases hm : ENTITLEMENT_MODES.contains p.1.mode = true
  · have hinner : promoteEligibleEntitlement p = (p.1, some p.1) := by
      unfold promoteEligibleEntitlement entitlementSetOfficialState
      rw [if_pos hm]
    rw [hinner]
    unfold promoteEligibleEntitlement entitlementSetOfficialState
    dsimp only
    rw [if_pos hm]
  · have hinner : promoteEligibleEntitlement p = p := by
      unfold promoteEligibleEntitlement
      rw [if_neg hm]
    rw [hinner]
    exact hinner

theorem ents_map_idem (l : List (EntitlementVal × Option EntitlementVal)) :
    (l.map promoteEligibleEntitlement).map promoteEligibleEntitlement =
      l.map promoteEligibleEntitlement := by
  induction l with
  | nil => rfl
  | cons a t ih =>
    simp only [List.map_cons]
    rw [promoteEligibleEntitlement_idem, ih]

theorem restriction_map_idem
    (o : Option (RestrictionVal × Option RestrictionVal)) :
    (o.map restrictionSetOfficialState).map restrictionSetOfficialState =
      o.map restrictionSetOfficialState := by
  cases o <;> rfl

theorem promotion_noop_of_shape (σ : CatalogState) (i : Nat)
    (h1 : σ.officialRunId = some i)
    (h2 : σ.officialRun = some σ.draftRun)
    (h3 : σ.seats.map seatSetOfficialState = σ.seats)
    (h4 : σ.restriction.map restrictionSetOfficialState = σ.restriction)
    (h5 : σ.officialCourse = some σ.draftCourse)
    (h6 : σ.entitlements.map promoteEligibleEntitlement = σ.entitlements)
    (h7 : set_active_url_slug
        ⟨σ.officialCourseId, false, some σ.draftCourseId⟩
        ((active_url_slug ⟨σ.draftCourseId, true, some σ.officialCourseId⟩
          σ.slugs).getD "") σ.slugs = .ok σ.slugs)
    (h8 : σ.officialRunSlug = some σ.draftRunSlug) :
    update_or_create_official_version σ = .ok σ := by
  have hrun : runSetOfficialState σ = (σ, i) := by
    unfold runSetOfficialState
    rw [h1]
    dsimp only
    rw [← h2, ← h1]
  have hc := course_promo_noop σ i h5 h6 h7
  unfold update_or_create_official_version
  dsimp only
  rw [hrun]
  dsimp only
  rw [h3, h4]
  have hc2 : course_update_or_create_official_version
      { σ with seats := σ.seats, restriction := σ.restriction } i =
        .ok σ := hc
  rw [hc2]
  dsimp only
  rw [← h8]

/-- C4: promotion is idempotent.  Under the registry invariants (distinct
draft/official course rows, globally unique slug texts, draft-side slug
rows active, a non-empty resolvable draft slug), a second
update_or_create_official_version call right after a successful one does
not error and returns the same observable state unchanged. -/
theorem promotion_idempotent (st st' : CatalogState)
    (hdc : st.draftCourseId ≠ st.officialCourseId)
    (huniq : slugTextsUnique st.slugs)
    (hall : ∀ r ∈ st.slugs, r.courseId = st.draftCourseId →
      r.isActive = true)
    (hres : ∃ s, active_url_slug
        ⟨st.draftCourseId, true, some st.officialCourseId⟩ st.slugs =
          some s ∧ s ≠ "")
    (hok : update_or_create_official_version st = .ok st') :
    update_or_create_official_version st' = .ok st' := by
  have hframe := runSetOfficialState_frame st
  unfold update_or_create_official_version at hok
  dsimp only at hok
  split at hok
  · exact absurd hok (by simp)
  · rename_i st4 heq
    have hst' : st' = { st4 with officialRunSlug := some st4.draftRunSlug } :=
      (Except.ok.inj hok).symm
    have hspec := course_promo_spec _ _ _ heq
    dsimp only at hspec
    obtain ⟨s, hs, hsne⟩ := hres
    have hslugeq : set_active_url_slug
        ⟨st.officialCourseId, false, some st.draftCourseId⟩ s st.slugs =
          .ok st4.slugs := by
      have h16 := hspec.2.2.2.2.2.2.2.2.2.2.2.2.2.2.2
      rw [hframe.2.2.2.1, hframe.2.2.2.2.1, hframe.2.2.2.2.2.1, hs] at h16
      exact h16
    have hnoop := official_reactivate_noop
      ⟨st.officialCourseId, false, some st.draftCourseId⟩
      st.draftCourseId s st.slugs st4.slugs rfl rfl hdc hsne huniq hall
      hslugeq
    subst hst'
    have h1 : st4.officialRunId = some (runSetOfficialState st).2 := by
      rw [hspec.2.2.2.2.2.2.2.1]
      exact hframe.2.2.2.2.2.2.2.2.2.2.2.2.2.2
    have h2 : st4.officialRun = some st4.draftRun := by
      rw [hspec.2.2.2.2.2.2.1, hframe.2.2.2.2.2.2.2.2.2.2.2.2.2.1,
        hspec.2.2.2.2.2.2.2.2.2.1, hframe.2.2.2.2.2.2.1]
    have h3 : st4.seats.map seatSetOfficialState = st4.seats := by
      rw [hspec.1, hframe.1]
      exact seats_map_idem st.seats
    have h4 : st4.restriction.map restrictionSetOfficialState =
        st4.restriction := by
      rw [hspec.2.2.1, hframe.2.2.1]
      exact restriction_map_idem st.restriction
    have h5 : st4.officialCourse = some st4.draftCourse := by
      rw [hspec.2.2.2.1, hframe.2.2.2.2.2.2.2.2.2.1,
        hspec.2.2.2.2.1, hframe.2.2.2.2.2.2.2.2.2.1]
    have h6 : st4.entitlements.map promoteEligibleEntitlement =
        st4.entitlements := by
      rw [hspec.2.1, hframe.2.1]
      exact ents_map_idem st.entitlements
    have hcid : st4.draftCourseId = st.draftCourseId := by
      rw [hspec.2.2.2.2.2.2.2.2.2.2.1]
      exact hframe.2.2.2.2.1
    have hoid : st4.officialCourseId = st.officialCourseId := by
      rw [hspec.2.2.2.2.2.2.2.2.2.2.2.1]
      exact hframe.2.2.2.2.2.1
    have h7 : set_active_url_slug
        ⟨st4.officialCourseId, false, some st4.draftCourseId⟩
        ((active_url_slug
          ⟨st4.draftCourseId, true, some st4.officialCourseId⟩
          st4.slugs).getD "") st4.slugs = .ok st4.slugs := by
      rw [hcid, hoid, hnoop.1]
      exact hnoop.2
    exact promotion_noop_of_shape _ (runSetOfficialState st).2
      h1 h2 h3 h4 h5 h6 h7 rfl

/-- Witness for `promotion_idempotent`: promoting the concrete state
`promoSt` once yields `promoSt2`, and promoting again returns `promoSt2`
unchanged without error. -/
theorem promotion_idempotent_witness :
    update_or_create_official_version promoSt2 = .ok promoSt2 :=
  promotion_idempotent promoSt promoSt2 (by decide)
    (by unfold slugTextsUnique; decide) (by decide)
    ⟨"my-course", rfl, by decide⟩ rfl

end CourseDiscovery
